import Mathlib

/-!
Verification development for the XML-to-spreadsheet converter
(`src/api/convert.py` and `src/xml_to_xlsx_converter.py`).

The development shallowly embeds the two core functions,
`parse_xml_to_dataframe` and `create_pivot_table`, over an explicit
model of the library values they manipulate:

* `Cell` models a pandas scalar: a string, an int64 value, a float64
  value, or a missing value (NaN / None).
* `Table` models a DataFrame as an ordered list of column labels plus
  rows of cells.  Per the data model, field names are unique within a
  table; column access resolves to the first matching label.
* `Element` models a parsed `xml.etree.ElementTree` element: tag, text
  (`None` for empty or self-closing elements, as ElementTree produces),
  and the list of direct children.  Malformed-XML handling happens
  before an `Element` exists and is outside the embedding.

Library behaviour that the source relies on is embedded explicitly:

* `pd.to_numeric(errors="coerce")` parses decimal integer and
  fractional literals; unparseable cells become missing; a column
  becomes float64 (so every value prints with a decimal point) as soon
  as any cell is fractional or missing, and stays int64 otherwise.
* `DataFrame.pivot_table(index=…, columns=…, values=…, aggfunc="first")`
  drops rows with a missing value in any index key or in the column
  key, aggregates each (key, period) cell to its first non-missing
  value, drops (key, period) combinations whose aggregate is missing
  (hence groups and period columns with no surviving combination), and
  sorts row keys and column labels ascending.  Comparing a string label
  with a numeric label raises, which the source's `except` catches.
* Python's `sorted(…, key=f)` first evaluates `f` on every element
  (so a raising key aborts the sort) and then sorts stably.
-/

namespace XmlConvert

/-- Model of a pandas scalar value: string, int64, float64, or NaN/None. -/
inductive Cell where
  | str (s : String)
  | int (n : Int)
  | float (q : ℚ)
  | missing
deriving DecidableEq

/-- Numeric view of a cell, when it is a number. -/
def Cell.toNum : Cell → Option ℚ
  | .int n => some (n : ℚ)
  | .float q => some q
  | _ => none

/-- Whether a cell is a number (int64 or float64). -/
def Cell.isNum : Cell → Bool
  | .int _ => true
  | .float _ => true
  | _ => false

/-- Whether a cell is a float64 value. -/
def Cell.isFloat : Cell → Bool
  | .float _ => true
  | _ => false

/-- Whether a cell is a string. -/
def Cell.isStr : Cell → Bool
  | .str _ => true
  | _ => false

/-- Python `==` on scalar values: numbers compare numerically across
int/float, strings compare by characters, NaN is equal to nothing
(including itself), and a string never equals a number. -/
def cellEq : Cell → Cell → Bool
  | .str s, .str t => s == t
  | .int a, .int b => a == b
  | .int a, .float b => (a : ℚ) == b
  | .float a, .int b => a == (b : ℚ)
  | .float a, .float b => a == b
  | _, _ => false

/-- Python `<=` on strings: lexicographic comparison of code points. -/
def charListLe : List Char → List Char → Bool
  | [], _ => true
  | _ :: _, [] => false
  | a :: as, b :: bs =>
    if a.toNat == b.toNat then charListLe as bs else decide (a.toNat < b.toNat)

/-- Python `<=` on scalar values of the same kind.  The value on a
string/number or missing comparison is irrelevant: every sort in the
model is guarded by a same-kind check that mirrors the `TypeError`
raised by such comparisons. -/
def cellLe : Cell → Cell → Bool
  | .str s, .str t => charListLe s.data t.data
  | a, b =>
    match a.toNum, b.toNum with
    | some x, some y => decide (x ≤ y)
    | _, _ => true

/-- A list of cells that pandas can sort: all numbers or all strings. -/
def sameKind (l : List Cell) : Bool :=
  l.all Cell.isNum || l.all Cell.isStr

/-- Element-wise python `==` on key tuples. -/
def listCellEq (a b : List Cell) : Bool :=
  a.length == b.length && (a.zip b).all fun p => cellEq p.1 p.2

/-- Lexicographic `<=` on key tuples, position-wise by `cellEq`/`cellLe`. -/
def listCellLe : List Cell → List Cell → Bool
  | [], _ => true
  | _ :: _, [] => true
  | a :: as, b :: bs => if cellEq a b then listCellLe as bs else cellLe a b

/-- Stable insertion of `x` into `l`: `x` goes in front of the first
element `y` with `le x y`. -/
def insertLe (le : α → α → Bool) (x : α) : List α → List α
  | [] => [x]
  | y :: l => if le x y then x :: y :: l else y :: insertLe le x l

/-- Stable insertion sort; models both python `sorted` and the pandas
ascending sorts of row keys and column labels. -/
def sortByLe (le : α → α → Bool) : List α → List α
  | [] => []
  | x :: l => insertLe le x (sortByLe le l)

/-- Fuelled first-occurrence deduplication; the fuel only serves to
make the recursion structural and is always sufficient when it starts
at the list length, since filtering never lengthens a list. -/
def dedupByAux (eq : α → α → Bool) : Nat → List α → List α
  | _, [] => []
  | 0, _ => []
  | n + 1, x :: l => x :: dedupByAux eq n (l.filter fun y => !eq x y)

/-- Keep the first occurrence of each element under `eq`; models pandas
uniqueness of group keys and column labels (first-seen representative). -/
def dedupBy (eq : α → α → Bool) (l : List α) : List α :=
  dedupByAux eq l.length l

/-- Model of a DataFrame: ordered column labels and rows of cells.
Column labels produced by extraction are `Cell.str` field names; pivot
output additionally uses period values as column labels. -/
structure Table where
  cols : List Cell
  rows : List (List Cell)
deriving DecidableEq

/-- Index of the first label in a list that python-equals `c`. -/
def colIdxAux (c : Cell) : List Cell → Option Nat
  | [] => none
  | l :: ls => if cellEq l c then some 0 else (colIdxAux c ls).map (· + 1)

/-- Index of the first column whose label python-equals `c`. -/
def Table.colIdx (t : Table) (c : Cell) : Option Nat :=
  colIdxAux c t.cols

/-- Python `name in df.columns`. -/
def Table.hasCol (t : Table) (name : String) : Bool :=
  (t.colIdx (.str name)).isSome

/-- Cell of a row at a column position (missing when out of range). -/
def getAt (row : List Cell) (i : Nat) : Cell :=
  row.getD i .missing

/-- The values of a named column, `df[name]`. -/
def Table.col (t : Table) (name : String) : List Cell :=
  match t.colIdx (.str name) with
  | some i => t.rows.map fun r => getAt r i
  | none => []

/-- `Series.nunique()`: number of distinct non-missing values. -/
def nunique (l : List Cell) : Nat :=
  (dedupBy cellEq (l.filter fun c => !(c == Cell.missing))).length

/-- Digits to a natural number. -/
def digitsToNat (cs : List Char) : Nat :=
  cs.foldl (fun a c => a * 10 + (c.toNat - 48)) 0

/-- The decimal fragment of `pd.to_numeric`'s scalar parser: an
optional sign followed by an integer literal (giving an int64 cell) or
a fractional literal with a decimal point (giving a float64 cell).
Anything else fails, which `errors="coerce"` turns into NaN. -/
def pyNumParse (s : String) : Option Cell :=
  let (neg, body) :=
    match s.data with
    | '-' :: rest => (true, rest)
    | '+' :: rest => (false, rest)
    | cs => (false, cs)
  if body ≠ [] && body.all Char.isDigit then
    let n : Int := digitsToNat body
    some (.int (if neg then -n else n))
  else
    match body.splitOn '.' with
    | [ip, fp] =>
      if ip.all Char.isDigit && fp.all Char.isDigit && (ip ≠ [] || fp ≠ []) then
        let q : ℚ := (digitsToNat ip : ℚ) + (digitsToNat fp : ℚ) / ((10 : ℚ) ^ fp.length)
        some (.float (if neg then -q else q))
      else none
    | _ => none

/-- `pd.to_numeric(errors="coerce")` on one cell. -/
def toNumericCell : Cell → Cell
  | .str s => (pyNumParse s).getD .missing
  | .int n => .int n
  | .float q => .float q
  | .missing => .missing

/-- Dtype promotion after coercion: a column containing any missing or
fractional value becomes float64, turning its int values into floats. -/
def promote (l : List Cell) : List Cell :=
  if l.any fun c => c == Cell.missing || c.isFloat then
    l.map fun c => match c with | .int n => .float (n : ℚ) | c => c
  else l

/-- `pd.to_numeric(df[col], errors="coerce")` on a whole column. -/
def toNumericColumn (l : List Cell) : List Cell :=
  promote (l.map toNumericCell)

/-- Replace the values of the column at position `i`. -/
def Table.setColVals (t : Table) (i : Nat) (vals : List Cell) : Table :=
  { t with rows := List.zipWith (fun r v => r.set i v) t.rows vals }

/-- Model of a parsed ElementTree element.  `text` is `none` when the
element has no text node, which is what ElementTree produces for both
`<A></A>` and `<A/>`; parsed text is never the empty string. -/
inductive Element where
  | mk (tag : String) (text : Option String) (children : List Element)

/-- Tag of an element; in a namespaced document ElementTree stores it
in `\x7buri\x7dlocal` form. -/
def Element.tag : Element → String
  | .mk t _ _ => t

/-- Text of an element. -/
def Element.text : Element → Option String
  | .mk _ x _ => x

/-- Direct children of an element, in document order. -/
def Element.children : Element → List Element
  | .mk _ _ c => c

mutual

/-- All proper descendants of an element in document order; the element
itself is not included, matching ElementTree path steps `.//name`. -/
def descendants : Element → List Element
  | .mk _ _ cs => descList cs

/-- Descendant traversal over a child list: each child followed by its
own descendants. -/
def descList : List Element → List Element
  | [] => []
  | c :: rest => (c :: descendants c) ++ descList rest

end

/-- The elements `e.findall(".//" + name)` returns: proper descendants
whose tag equals `name`, in document order. -/
def findAll (e : Element) (name : String) : List Element :=
  (descendants e).filter fun d => d.tag == name

/-- The element `e.find(".//" + name)` returns: the first such
descendant, if any. -/
def findFirst (e : Element) (name : String) : Option Element :=
  (findAll e name).head?

/-- The namespace URI the source passes as the default namespace. -/
def nsUri : String :=
  "http://schemas.datacontract.org/2004/07/E1212_ServiceAPI.Models"

/-- A name qualified by the default namespace, as ElementTree resolves
a bare path step under `namespace = \x7b'': nsUri\x7d`. -/
def nsWrap (name : String) : String :=
  "\x7b" ++ nsUri ++ "\x7d" ++ name

/-- Python `s.split(c)` on a character list: split at every occurrence
of `c`; the result is never empty. -/
def charSplit (c : Char) : List Char → List (List Char)
  | [] => [[]]
  | x :: rest =>
    if x == c then [] :: charSplit c rest
    else
      match charSplit c rest with
      | [] => [[x]]
      | p :: ps => (x :: p) :: ps

/-- Tag cleanup from the source: `child.tag.split('\x7d')[-1] if '\x7d'
in child.tag else child.tag`: when the tag contains a closing brace,
keep only the part after the last one. -/
def stripTag (t : String) : String :=
  if t.data.contains '\x7d' then String.mk ((charSplit '\x7d' t.data).getLastD []) else t

/-- Python dict item assignment on an ordered record: an existing key
keeps its position and gets the new value, a new key is appended. -/
def dictSet (r : List (String × Option String)) (k : String) (v : Option String) :
    List (String × Option String) :=
  if r.any fun p => p.1 == k then
    r.map fun p => if p.1 == k then (k, v) else p
  else r ++ [(k, v)]

/-- Value of a key in a record: `none` when the key is absent,
`some none` when the element was present without text. -/
def lookupRec (r : List (String × Option String)) (k : String) :
    Option (Option String) :=
  (r.find? fun p => p.1 == k).map Prod.snd

/-- `pd.DataFrame(records)`: columns are the union of the record keys
in order of first appearance; a record missing a key, or holding
`None`, yields a missing cell. -/
def recordsToTable (records : List (List (String × Option String))) : Table :=
  let colNames :=
    dedupBy (fun a b : String => a == b) ((records.map fun r => r.map Prod.fst).flatten)
  { cols := colNames.map Cell.str
    rows := records.map fun r => colNames.map fun c =>
      match lookupRec r c with
      | some (some s) => Cell.str s
      | some none => Cell.missing
      | none => Cell.missing }

/-- Python `int(s)` on a string: an optional single leading minus sign
followed by digits; anything else raises `ValueError`. -/
def pyIntParse (s : String) : Option Int :=
  match s.data with
  | '-' :: rest =>
    if rest ≠ [] && rest.all Char.isDigit then some (-(digitsToNat rest : Int)) else none
  | cs =>
    if cs ≠ [] && cs.all Char.isDigit then some ((digitsToNat cs : Int)) else none

/-- Effectful map over a list in `Except`, stopping at the first
error; model of evaluating a raising function on every list element. -/
def mapE (f : α → Except ε β) : List α → Except ε (List β)
  | [] => .ok []
  | x :: l =>
    match f x with
    | .error e => .error e
    | .ok y =>
      match mapE f l with
      | .error e => .error e
      | .ok ys => .ok (y :: ys)

/-- Order on the year sort keys: `none` models `float("inf")`, larger
than every integer and tied with itself. -/
def keyLe : Option Int → Option Int → Bool
  | some x, some y => decide (x ≤ y)
  | some _, none => true
  | none, some _ => false
  | none, none => true

/-- The key of the i-th row of every group tuple produced so far: the
pivot key tuple restricted to one index level. -/
def keyLevel (ks : List (List Cell)) (i : Nat) : List Cell :=
  ks.map fun k => getAt k i

/-- The key tuple of one input row: its values in the identifier
columns, in identifier order. -/
def rowKey (df : Table) (ids : List String) (r : List Cell) : List Cell :=
  ids.map fun n => getAt r ((df.colIdx (.str n)).getD 0)

/-- Rows that survive `pivot_table`'s grouping: a row with a missing
value in any identifier column or in `Period` is dropped, because
`groupby` drops missing group keys. -/
def keptRows (df : Table) (ids : List String) : List (List Cell) :=
  df.rows.filter fun r =>
    (rowKey df ids r).all (fun c => !(c == Cell.missing)) &&
    !(getAt r ((df.colIdx (.str "Period")).getD 0) == Cell.missing)

/-- The aggregate `aggfunc="first"` computes for one (key, period)
cell: the first non-missing `DTVAL_CO` among the matching surviving
rows, missing when there is none. -/
def pivotAgg (df : Table) (ids : List String) (k : List Cell) (p : Cell) : Cell :=
  ((((keptRows df ids).filter fun r =>
      listCellEq (rowKey df ids r) k &&
      cellEq (getAt r ((df.colIdx (.str "Period")).getD 0)) p).map
    fun r => getAt r ((df.colIdx (.str "DTVAL_CO")).getD 0)).filter
    fun c => !(c == Cell.missing)).headD Cell.missing

/-- Distinct group key tuples of the surviving rows, first-seen order. -/
def pivotKeys0 (df : Table) (ids : List String) : List (List Cell) :=
  dedupBy listCellEq ((keptRows df ids).map (rowKey df ids))

/-- Distinct `Period` values of the surviving rows, first-seen order. -/
def pivotPers0 (df : Table) (ids : List String) : List Cell :=
  dedupBy cellEq ((keptRows df ids).map fun r =>
    getAt r ((df.colIdx (.str "Period")).getD 0))

/-- Group keys that survive `pivot_table`'s `dropna`: groups whose
aggregates are missing in every period vanish from the index. -/
def pivotKeys (df : Table) (ids : List String) : List (List Cell) :=
  (pivotKeys0 df ids).filter fun k =>
    (pivotPers0 df ids).any fun p => !(pivotAgg df ids k p == Cell.missing)

/-- Period labels that survive `pivot_table`'s `dropna`: columns whose
aggregates are missing for every group are dropped. -/
def pivotPers (df : Table) (ids : List String) : List Cell :=
  (pivotPers0 df ids).filter fun p =>
    (pivotKeys0 df ids).any fun k => !(pivotAgg df ids k p == Cell.missing)

/-- Whether pandas can sort the group keys: within each index level
all values must be of one kind (all numbers or all strings), else the
comparison raises `TypeError`. -/
def keysSortable (df : Table) (ids : List String) : Bool :=
  (List.range ids.length).all fun i => sameKind (keyLevel (pivotKeys df ids) i)

/-- Whether pandas can sort the period labels. -/
def persSortable (df : Table) (ids : List String) : Bool :=
  sameKind (pivotPers df ids)

/-- Group keys in the ascending order `pivot_table` leaves them in. -/
def pivotKeysSorted (df : Table) (ids : List String) : List (List Cell) :=
  sortByLe listCellLe (pivotKeys df ids)

/-- Period labels in the ascending order `pivot_table` leaves them in. -/
def pivotPersSorted (df : Table) (ids : List String) : List Cell :=
  sortByLe cellLe (pivotPers df ids)

/-- Model of `df.pivot_table(index=id_cols, columns="Period",
values="DTVAL_CO", aggfunc="first").reset_index()`: fails when labels
of mixed kinds must be sorted, or when `reset_index` would insert an
identifier column whose name already labels a period column; otherwise
the identifier columns come first, then one column per surviving
period in ascending order, one row per surviving group key in
ascending order, cells holding the first-non-missing aggregates. -/
def pivotTableReset (df : Table) (ids : List String) : Except String Table :=
  if !(keysSortable df ids && persSortable df ids) then
    .error "TypeError: unsupported comparison between instances of str and a number"
  else if (pivotPersSorted df ids).any (fun p => ids.any fun n => cellEq p (.str n)) then
    .error "ValueError: cannot insert column, already exists"
  else
    .ok { cols := ids.map Cell.str ++ pivotPersSorted df ids
          rows := (pivotKeysSorted df ids).map fun k =>
            k ++ (pivotPersSorted df ids).map (pivotAgg df ids k) }

/-- Column selection `df[labels]`, each label resolved to its first
matching column. -/
def Table.selectCols (t : Table) (labels : List Cell) : Table :=
  { cols := labels
    rows := t.rows.map fun r => labels.map fun lab =>
      getAt r ((t.colIdx lab).getD 0) }

namespace ApiConvert

/-- Lines 16-20 of `src/api/convert.py`: find `DataList` anywhere
below the root, first under the namespace, then without it. -/
def findDataList (root : Element) : Option Element :=
  match findFirst root (nsWrap "DataList") with
  | some e => some e
  | none => findFirst root "DataList"

/-- Lines 26-29: find all `TN_DT` descendants under the namespace,
retrying without it when none match. -/
def findTNs (dl : Element) : List Element :=
  let withNs := findAll dl (nsWrap "TN_DT")
  if withNs.isEmpty then findAll dl "TN_DT" else withNs

/-- Lines 31-43: build one record per `TN_DT` from its direct
children, stripping namespaces from tags; an element without text
stores `None`. -/
def buildRecord (tn : Element) : List (String × Option String) :=
  tn.children.foldl (fun r c => dictSet r (stripTag c.tag) c.text) []

/-- Line 52: the columns coerced with `pd.to_numeric`. -/
def numeric_columns : List String :=
  ["DTVAL_CO", "Period", "CODE", "CODE1", "CODE2"]

/-- Lines 53-56: coerce each listed column that is present. -/
def coerceNumericCols (t : Table) : Table :=
  numeric_columns.foldl
    (fun acc name =>
      match acc.colIdx (.str name) with
      | some i => acc.setColVals i (toNumericColumn (acc.rows.map fun r => getAt r i))
      | none => acc)
    t

/-- Lines 7-58, `parse_xml_to_dataframe`, from the parsed root element
on: locate `DataList`, extract the `TN_DT` records, build the frame,
coerce the numeric columns.  The `ET.fromstring` call and the
enclosing `try` happen before a root element exists. -/
def parse_xml_to_dataframe (root : Element) : Option Table × String :=
  match findDataList root with
  | none => (none, "No DataList found in XML")
  | some dl =>
    let records := (findTNs dl).map buildRecord
    if records.isEmpty then (none, "No data records found")
    else
      (some (coerceNumericCols (recordsToTable records)),
       "Successfully parsed " ++ toString records.length ++ " records")

/-- Line 71: the fixed priority list of identifier columns. -/
def potential_id_cols : List String :=
  ["CODE", "SCR_MN", "SCR_ENG", "SCR_MN1", "SCR_ENG1"]

/-- Line 102's sort key `lambda x: int(str(x)) if
str(x).replace('-','').isdigit() else float('inf')` on a column label.
For an int64 label, `str(x)` is its decimal form, which passes the
digit test and reparses to the same value; for a float64 label,
`str(x)` always contains a decimal point or exponent, so the digit
test fails; for a string label, stripping every minus sign must leave
only digits, and then `int` itself still raises unless the string is
an optionally-signed digit run. -/
def yearKeyE : Cell → Except String (Option Int)
  | .int n => .ok (some n)
  | .float _ => .ok none
  | .missing => .ok none
  | .str s =>
    if (s.data.filter fun c => c ≠ '-') ≠ [] &&
       (s.data.filter fun c => c ≠ '-').all Char.isDigit then
      match pyIntParse s with
      | some n => .ok (some n)
      | none => .error ("ValueError: invalid literal for int with base 10: " ++ s)
    else .ok none

/-- Lines 101-102: the non-identifier columns, stably sorted by the
year key; `sorted` evaluates the key everywhere before comparing. -/
def yearColsE (ids : List String) (pcols : List Cell) : Except String (List Cell) :=
  let cands := pcols.filter fun p => !(ids.any fun n => cellEq p (.str n))
  match mapE yearKeyE cands with
  | .error e => .error e
  | .ok keys =>
    .ok ((sortByLe (fun a b => keyLe a.2 b.2) (cands.zip keys)).map Prod.fst)

/-- Lines 88-105: the fallible pivot block inside the `try`. -/
def pivotRun (df : Table) (ids : List String) : Except String Table :=
  match pivotTableReset df ids with
  | .error e => .error e
  | .ok pt =>
    match yearColsE ids pt.cols with
    | .error e => .error e
    | .ok ycols => .ok (pt.selectCols (ids.map Cell.str ++ ycols))

/-- Lines 63-108, `create_pivot_table`: the three eligibility gates,
then the pivot block with its catch-all fallback. -/
def create_pivot_table (df : Table) : Table × String :=
  if !(["Period", "DTVAL_CO"].all fun c => df.hasCol c) then
    (df, "No pivot - missing required columns")
  else
    let id_cols := potential_id_cols.filter fun n => df.hasCol n
    if id_cols.isEmpty then (df, "No pivot - no identifier columns found")
    else if nunique (df.col "Period") ≤ 1 then (df, "No pivot - only one period found")
    else
      match pivotRun df id_cols with
      | .ok t =>
        (t, "Pivoted data: " ++ toString t.rows.length ++ " categories across " ++
            toString (t.cols.length - id_cols.length) ++ " periods")
      | .error e => (df, "Pivot failed: " ++ e ++ ", using original format")

end ApiConvert

namespace BatchConvert

/-- Lines 23-27 of `src/xml_to_xlsx_converter.py`: find `DataList`
anywhere below the root, first under the namespace, then without it. -/
def findDataList (root : Element) : Option Element :=
  match findFirst root (nsWrap "DataList") with
  | some e => some e
  | none => findFirst root "DataList"

/-- Lines 33-36: find all `TN_DT` descendants under the namespace,
retrying without it when none match. -/
def findTNs (dl : Element) : List Element :=
  let withNs := findAll dl (nsWrap "TN_DT")
  if withNs.isEmpty then findAll dl "TN_DT" else withNs

/-- Lines 38-50: build one record per `TN_DT` from its direct
children, stripping namespaces from tags; an element without text
stores `None`. -/
def buildRecord (tn : Element) : List (String × Option String) :=
  tn.children.foldl (fun r c => dictSet r (stripTag c.tag) c.text) []

/-- Line 59: the columns coerced with `pd.to_numeric`. -/
def numeric_columns : List String :=
  ["DTVAL_CO", "Period", "CODE", "CODE1", "CODE2"]

/-- Lines 60-63: coerce each listed column that is present. -/
def coerceNumericCols (t : Table) : Table :=
  numeric_columns.foldl
    (fun acc name =>
      match acc.colIdx (.str name) with
      | some i => acc.setColVals i (toNumericColumn (acc.rows.map fun r => getAt r i))
      | none => acc)
    t

/-- Lines 12-67, `parse_xml_to_dataframe`, from the parsed root
element on; this file obtains the root with `ET.parse(path).getroot()`
instead of `ET.fromstring(text)` and is otherwise identical. -/
def parse_xml_to_dataframe (root : Element) : Option Table × String :=
  match findDataList root with
  | none => (none, "No DataList found in XML")
  | some dl =>
    let records := (findTNs dl).map buildRecord
    if records.isEmpty then (none, "No data records found")
    else
      (some (coerceNumericCols (recordsToTable records)),
       "Successfully parsed " ++ toString records.length ++ " records")

/-- Line 78: the fixed priority list of identifier columns. -/
def potential_id_cols : List String :=
  ["CODE", "SCR_MN", "SCR_ENG", "SCR_MN1", "SCR_ENG1"]

/-- Line 108's sort key, identical to the api file's. -/
def yearKeyE : Cell → Except String (Option Int)
  | .int n => .ok (some n)
  | .float _ => .ok none
  | .missing => .ok none
  | .str s =>
    if (s.data.filter fun c => c ≠ '-') ≠ [] &&
       (s.data.filter fun c => c ≠ '-').all Char.isDigit then
      match pyIntParse s with
      | some n => .ok (some n)
      | none => .error ("ValueError: invalid literal for int with base 10: " ++ s)
    else .ok none

/-- Lines 107-108: the non-identifier columns, stably sorted by the
year key. -/
def yearColsE (ids : List String) (pcols : List Cell) : Except String (List Cell) :=
  let cands := pcols.filter fun p => !(ids.any fun n => cellEq p (.str n))
  match mapE yearKeyE cands with
  | .error e => .error e
  | .ok keys =>
    .ok ((sortByLe (fun a b => keyLe a.2 b.2) (cands.zip keys)).map Prod.fst)

/-- Lines 94-111: the fallible pivot block inside the `try`. -/
def pivotRun (df : Table) (ids : List String) : Except String Table :=
  match pivotTableReset df ids with
  | .error e => .error e
  | .ok pt =>
    match yearColsE ids pt.cols with
    | .error e => .error e
    | .ok ycols => .ok (pt.selectCols (ids.map Cell.str ++ ycols))

/-- Lines 69-114, `create_pivot_table`: byte-identical to the api
file's function. -/
def create_pivot_table (df : Table) : Table × String :=
  if !(["Period", "DTVAL_CO"].all fun c => df.hasCol c) then
    (df, "No pivot - missing required columns")
  else
    let id_cols := potential_id_cols.filter fun n => df.hasCol n
    if id_cols.isEmpty then (df, "No pivot - no identifier columns found")
    else if nunique (df.col "Period") ≤ 1 then (df, "No pivot - only one period found")
    else
      match pivotRun df id_cols with
      | .ok t =>
        (t, "Pivoted data: " ++ toString t.rows.length ++ " categories across " ++
            toString (t.cols.length - id_cols.length) ++ " periods")
      | .error e => (df, "Pivot failed: " ++ e ++ ", using original format")

end BatchConvert

mutual

/-- Qualify every tag of a document with namespace `u`: the tree a
document with a default `xmlns` declaration parses to, compared with
the same document without it. -/
def mapNsE (u : String) : Element → Element
  | .mk t x cs => .mk ("\x7b" ++ u ++ "\x7d" ++ t) x (mapNsL u cs)

/-- Tag qualification over a child list. -/
def mapNsL (u : String) : List Element → List Element
  | [] => []
  | c :: rest => mapNsE u c :: mapNsL u rest

end

mutual

/-- Whether every tag in a document is namespace-free (no braces),
which is what parsing a document without namespaces produces. -/
def bareTagsE : Element → Bool
  | .mk t _ cs => !(t.data.contains '\x7b') && !(t.data.contains '\x7d') && bareTagsL cs

/-- Namespace-freedom over a child list. -/
def bareTagsL : List Element → Bool
  | [] => true
  | c :: rest => bareTagsE c && bareTagsL rest

end

/-- Whether an element named `name` occurs anywhere in the document,
the root element included. -/
def anyTag (e : Element) (name : String) : Bool :=
  e.tag == name || (descendants e).any fun d => d.tag == name

/-- The year sort key a label ends up with when the key computation
does not raise. -/
def yearKeyD (c : Cell) : Option Int :=
  match ApiConvert.yearKeyE c with
  | .ok k => k
  | .error _ => none

/-- The table without the rows that have a missing value in some
identifier column. -/
def dropMissingIdRows (df : Table) (ids : List String) : Table :=
  { df with rows := df.rows.filter fun r =>
      (rowKey df ids r).all fun c => !(c == Cell.missing) }

/-- A `TN_DT` element with `CODE`, `Period` and `DTVAL_CO` children. -/
def tnRecord (code period val : String) : Element :=
  .mk "TN_DT" none
    [.mk "CODE" (some code) [], .mk "Period" (some period) [],
     .mk "DTVAL_CO" (some val) []]

/-- The document of the spec's concrete scenario: records
(A, 2020, 5), (A, 2021, 7), (B, 2020, 3). -/
def c1Doc : Element :=
  .mk "Envelope" none
    [.mk "DataList" none
      [tnRecord "A" "2020" "5", tnRecord "A" "2021" "7", tnRecord "B" "2020" "3"]]

/-- A table with two rows for (CODE 1, period 2020) where the first
duplicate has a missing `DTVAL_CO` and the second holds 5. -/
def c2Df : Table :=
  ⟨[.str "CODE", .str "Period", .str "DTVAL_CO"],
   [[.int 1, .int 2020, .missing], [.int 1, .int 2020, .int 5],
    [.int 1, .int 2021, .int 7]]⟩

/-- A table with two non-missing duplicates for (CODE 1, period 2020):
first 5, then 9. -/
def c2wDf : Table :=
  ⟨[.str "CODE", .str "Period", .str "DTVAL_CO"],
   [[.int 1, .int 2020, .int 5], [.int 1, .int 2020, .int 9],
    [.int 1, .int 2021, .int 7]]⟩

/-- A table whose string periods include the two non-numeric labels
"xyz" and "abc", encountered in that order. -/
def c3Df : Table :=
  ⟨[.str "CODE", .str "Period", .str "DTVAL_CO"],
   [[.int 1, .str "2020", .int 1], [.int 1, .str "xyz", .int 2],
    [.int 1, .str "abc", .int 3], [.int 1, .str "2021", .int 4]]⟩

/-- A table with the spec's period set 2021, 1999, abc, 2005. -/
def c3wDf : Table :=
  ⟨[.str "CODE", .str "Period", .str "DTVAL_CO"],
   [[.int 7, .str "2021", .int 1], [.int 7, .str "1999", .int 2],
    [.int 7, .str "abc", .int 3], [.int 7, .str "2005", .int 4]]⟩

/-- A table whose period label "5-5" passes the digit test of the year
sort key but makes `int("5-5")` raise. -/
def c4Df : Table :=
  ⟨[.str "CODE", .str "Period", .str "DTVAL_CO"],
   [[.int 1, .str "2", .int 1], [.int 1, .str "3", .int 2],
    [.int 1, .str "5-5", .int 3]]⟩

/-- A table without the required `Period`/`DTVAL_CO` columns. -/
def c5aDf : Table := ⟨[.str "CODE"], [[.int 1]]⟩

/-- A table with the required columns but no identifier column. -/
def c5bDf : Table := ⟨[.str "Period", .str "DTVAL_CO"], [[.int 2020, .int 5]]⟩

/-- An otherwise eligible table whose `Period` column has one value. -/
def c5cDf : Table :=
  ⟨[.str "CODE", .str "Period", .str "DTVAL_CO"],
   [[.int 1, .int 2020, .int 5], [.int 2, .int 2020, .int 6]]⟩

/-- A well-formed document whose root element itself is `DataList`. -/
def c6Doc : Element :=
  .mk "DataList" none [.mk "TN_DT" none [.mk "CODE" (some "1") []]]

/-- A namespace-free document with a `DataList` and two records. -/
def c7Doc : Element :=
  .mk "Root" none
    [.mk "DataList" none [tnRecord "10" "2020" "5", tnRecord "11" "2021" "6"]]

/-- A document whose first record has an empty element (`SCR_MN`) and
lacks the `EXTRA` field that the second record carries. -/
def c8Doc : Element :=
  .mk "Root" none
    [.mk "DataList" none
      [.mk "TN_DT" none [.mk "CODE" (some "1") [], .mk "SCR_MN" none []],
       .mk "TN_DT" none
         [.mk "CODE" (some "2") [], .mk "SCR_MN" (some "x") [],
          .mk "EXTRA" (some "y") []]]]

/-- An eligible table whose first row has a missing `CODE`. -/
def c9wDf : Table :=
  ⟨[.str "CODE", .str "Period", .str "DTVAL_CO"],
   [[.missing, .int 2020, .int 9], [.int 1, .int 2020, .int 5],
    [.int 1, .int 2021, .int 7]]⟩

/-- Membership in a stable insertion. -/
theorem mem_insertLe {le : α → α → Bool} {x a : α} {l : List α} :
    a ∈ insertLe le x l ↔ a = x ∨ a ∈ l := by
  induction l with
  | nil => simp [insertLe]
  | cons y l ih =>
    rw [insertLe]
    split
    · simp [List.mem_cons]
    · simp only [List.mem_cons, ih]
      tauto

/-- Membership in a stable sort. -/
theorem mem_sortByLe {le : α → α → Bool} {a : α} {l : List α} :
    a ∈ sortByLe le l ↔ a ∈ l := by
  induction l with
  | nil => simp [sortByLe]
  | cons x l ih =>
    rw [sortByLe, mem_insertLe, ih, List.mem_cons]

/-- A stable insertion is a permutation of consing. -/
theorem perm_insertLe (le : α → α → Bool) (x : α) (l : List α) :
    (insertLe le x l).Perm (x :: l) := by
  induction l with
  | nil => exact List.Perm.refl _
  | cons y l ih =>
    rw [insertLe]
    split
    · exact List.Perm.refl _
    · exact ((ih.cons y).trans (List.Perm.swap x y l))

/-- A stable sort permutes its input. -/
theorem perm_sortByLe (le : α → α → Bool) (l : List α) :
    (sortByLe le l).Perm l := by
  induction l with
  | nil => exact List.Perm.refl _
  | cons x l ih =>
    exact (perm_insertLe le x (sortByLe le l)).trans (ih.cons x)

/-- Fuelled deduplication only keeps original elements. -/
theorem mem_dedupByAux {eq : α → α → Bool} {a : α} :
    ∀ {n : Nat} {l : List α}, a ∈ dedupByAux eq n l → a ∈ l := by
  intro n
  induction n with
  | zero => intro l h; cases l <;> simp [dedupByAux] at h
  | succ n ih =>
    intro l h
    cases l with
    | nil => simp [dedupByAux] at h
    | cons x l =>
      rw [dedupByAux] at h
      rcases List.mem_cons.mp h with h | h
      · exact h ▸ List.mem_cons_self _ _
      · exact List.mem_cons_of_mem _ (List.mem_filter.mp (ih h)).1

/-- Deduplication only keeps original elements. -/
theorem mem_dedupBy {eq : α → α → Bool} {a : α} {l : List α}
    (h : a ∈ dedupBy eq l) : a ∈ l :=
  mem_dedupByAux h

/-- Distinct elements of a fuelled deduplication are pairwise unequal
under the deduplicating equality. -/
theorem pairwise_dedupByAux {eq : α → α → Bool} :
    ∀ {n : Nat} {l : List α},
      (dedupByAux eq n l).Pairwise fun a b => eq a b = false := by
  intro n
  induction n with
  | zero => intro l; cases l <;> simp [dedupByAux]
  | succ n ih =>
    intro l
    cases l with
    | nil => simp [dedupByAux]
    | cons x l =>
      rw [dedupByAux, List.pairwise_cons]
      refine ⟨fun y hy => ?_, ih⟩
      have := (List.mem_filter.mp (mem_dedupByAux hy)).2
      simpa using this

/-- Distinct elements of a deduplicated list are pairwise unequal
under the deduplicating equality. -/
theorem pairwise_dedupBy {eq : α → α → Bool} {l : List α} :
    (dedupBy eq l).Pairwise fun a b => eq a b = false :=
  pairwise_dedupByAux

/-- Stable insertion below a transitive total order preserves
sortedness, recorded together with the stability relation `R` that
held between the inserted element and everything after it. -/
theorem pairwise_insertLe {le : α → α → Bool} {R : α → α → Prop} {S : α → Prop}
    (total : ∀ a b, S a → S b → (le a b || le b a) = true)
    (trans : ∀ a b c, S a → S b → S c → le a b = true → le b c = true → le a c = true)
    (x : α) :
    ∀ l : List α, S x → (∀ y ∈ l, S y) →
      l.Pairwise (fun a b => le a b = true ∧ (le b a = true → R a b)) →
      (∀ y ∈ l, R x y) →
      (insertLe le x l).Pairwise fun a b => le a b = true ∧ (le b a = true → R a b) := by
  intro l
  induction l with
  | nil => intro _ _ _ _; exact List.pairwise_singleton _ _
  | cons y l ih =>
    intro hSx hSl hl hx
    have hSy : S y := hSl y (List.mem_cons_self _ _)
    have hSl' : ∀ z ∈ l, S z := fun z hz => hSl z (List.mem_cons_of_mem _ hz)
    rw [insertLe]
    split
    next hxy =>
      refine List.pairwise_cons.mpr ⟨fun z hz => ?_, hl⟩
      rcases List.mem_cons.mp hz with rfl | hz
      · exact ⟨hxy, fun _ => hx z (List.mem_cons_self _ _)⟩
      · refine ⟨trans x y z hSx hSy (hSl' z hz) hxy
          ((List.rel_of_pairwise_cons hl hz).1), fun _ => hx z (List.mem_cons_of_mem _ hz)⟩
    next hxy =>
      have hxy' : le x y = false := by
        cases h : le x y
        · rfl
        · exact absurd h hxy
      refine List.pairwise_cons.mpr ⟨fun z hz => ?_, ?_⟩
      · rcases mem_insertLe.mp hz with heq | hz
        · rw [heq]
          have htot := total x y hSx hSy
          rw [hxy'] at htot
          simp only [Bool.false_or] at htot
          exact ⟨htot, fun h => absurd h hxy⟩
        · exact List.rel_of_pairwise_cons hl hz
      · exact ih hSx hSl' (List.Pairwise.of_cons hl)
          (fun z hz => hx z (List.mem_cons_of_mem _ hz))

/-- A stable sort below a transitive total order yields a list that is
sorted and, between tied elements, preserves any relation `R` that was
pairwise true of the input. -/
theorem pairwise_sortByLe {le : α → α → Bool} {R : α → α → Prop} {S : α → Prop}
    (total : ∀ a b, S a → S b → (le a b || le b a) = true)
    (trans : ∀ a b c, S a → S b → S c → le a b = true → le b c = true → le a c = true) :
    ∀ l : List α, (∀ y ∈ l, S y) → l.Pairwise R →
      (sortByLe le l).Pairwise fun a b => le a b = true ∧ (le b a = true → R a b) := by
  intro l
  induction l with
  | nil => intro _ _; simp [sortByLe]
  | cons x l ih =>
    intro hS hl
    rw [sortByLe]
    exact pairwise_insertLe total trans x (sortByLe le l)
      (hS x (List.mem_cons_self _ _))
      (fun y hy => hS y (List.mem_cons_of_mem _ (mem_sortByLe.mp hy)))
      (ih (fun y hy => hS y (List.mem_cons_of_mem _ hy)) (List.Pairwise.of_cons hl))
      (fun y hy => List.rel_of_pairwise_cons hl (mem_sortByLe.mp hy))

/-- A successful effectful map has the input's length. -/
theorem mapE_ok_length {f : α → Except ε β} :
    ∀ {l : List α} {ks : List β}, mapE f l = .ok ks → ks.length = l.length := by
  intro l
  induction l with
  | nil => intro ks h; rw [mapE] at h; cases h; rfl
  | cons x l ih =>
    intro ks h
    rw [mapE] at h
    cases hx : f x with
    | error e => rw [hx] at h; simp at h
    | ok y =>
      rw [hx] at h
      cases hl : mapE f l with
      | error e => rw [hl] at h; simp at h
      | ok ys =>
        rw [hl] at h
        cases h
        simp [ih hl]

/-- A successful effectful map evaluates `f` to `ok` pointwise. -/
theorem mapE_ok_zip {f : α → Except ε β} :
    ∀ {l : List α} {ks : List β}, mapE f l = .ok ks →
      ∀ p ∈ l.zip ks, f p.1 = .ok p.2 := by
  intro l
  induction l with
  | nil => intro ks h p hp; simp at hp
  | cons x l ih =>
    intro ks h p hp
    rw [mapE] at h
    cases hx : f x with
    | error e => rw [hx] at h; simp at h
    | ok y =>
      rw [hx] at h
      cases hl : mapE f l with
      | error e => rw [hl] at h; simp at h
      | ok ys =>
        rw [hl] at h
        cases h
        rw [List.zip_cons_cons] at hp
        rcases List.mem_cons.mp hp with heq | hp
        · rw [heq]; exact hx
        · exact ih hl p hp

/-- Python equality of cells is symmetric. -/
theorem cellEq_symm {a b : Cell} (h : cellEq a b = true) : cellEq b a = true := by
  cases a <;> cases b <;> simp_all [cellEq]

/-- Python equality of cells is reflexive away from missing values. -/
theorem cellEq_refl {a : Cell} (h : a ≠ Cell.missing) : cellEq a a = true := by
  cases a <;> simp_all [cellEq]

/-- A missing cell python-equals nothing. -/
theorem cellEq_missing_left {b : Cell} : cellEq Cell.missing b = false := by
  cases b <;> rfl

/-- Nothing python-equals a missing cell. -/
theorem cellEq_missing_right {a : Cell} : cellEq a Cell.missing = false := by
  cases a <;> rfl

/-- Taking no more than the first summand of an appended string reads
from the first summand. -/
theorem take_data_append {a : String} (b : String) {n : Nat}
    (h : n ≤ a.data.length) : (a ++ b).data.take n = a.data.take n := by
  rw [String.data_append, List.take_append_eq_append_take,
    Nat.sub_eq_zero_of_le h, List.take_zero, List.append_nil]

/-- Code-point string comparison is total. -/
theorem charListLe_total : ∀ as bs : List Char,
    (charListLe as bs || charListLe bs as) = true := by
  intro as
  induction as with
  | nil => intro bs; simp [charListLe]
  | cons a as ih =>
    intro bs
    cases bs with
    | nil => simp [charListLe]
    | cons b bs =>
      simp only [charListLe]
      by_cases h : a.toNat = b.toNat
      · simp [h, ih bs]
      · have h' : ¬b.toNat = a.toNat := fun hc => h hc.symm
        rw [if_neg (by simpa using h), if_neg (by simpa using h')]
        simp only [Bool.or_eq_true, decide_eq_true_eq]
        omega

/-- Code-point string comparison is transitive. -/
theorem charListLe_trans : ∀ as bs cs : List Char,
    charListLe as bs = true → charListLe bs cs = true →
    charListLe as cs = true := by
  intro as
  induction as with
  | nil => intro bs cs _ _; simp [charListLe]
  | cons a as ih =>
    intro bs cs h1 h2
    cases bs with
    | nil => simp [charListLe] at h1
    | cons b bs =>
      cases cs with
      | nil => simp [charListLe] at h2
      | cons c cs =>
        simp only [charListLe, beq_iff_eq] at h1 h2 ⊢
        by_cases hab : a.toNat = b.toNat
        · by_cases hbc : b.toNat = c.toNat
          · rw [if_pos hab] at h1
            rw [if_pos hbc] at h2
            rw [if_pos (hab.trans hbc)]
            exact ih bs cs h1 h2
          · rw [if_pos hab] at h1
            rw [if_neg hbc] at h2
            simp only [decide_eq_true_eq] at h2
            have hac : ¬a.toNat = c.toNat := by omega
            rw [if_neg hac]
            simp only [decide_eq_true_eq]
            omega
        · rw [if_neg hab] at h1
          simp only [decide_eq_true_eq] at h1
          by_cases hbc : b.toNat = c.toNat
          · have hac : ¬a.toNat = c.toNat := by omega
            rw [if_neg hac]
            simp only [decide_eq_true_eq]
            omega
          · rw [if_neg hbc] at h2
            simp only [decide_eq_true_eq] at h2
            have hac : ¬a.toNat = c.toNat := by omega
            rw [if_neg hac]
            simp only [decide_eq_true_eq]
            omega

/-- Scalar comparison is total on strings. -/
theorem cellLe_total_str {a b : Cell} (ha : a.isStr = true) (hb : b.isStr = true) :
    (cellLe a b || cellLe b a) = true := by
  cases a with
  | str s =>
    cases b with
    | str t => exact charListLe_total s.data t.data
    | int _ => simp [Cell.isStr] at hb
    | float _ => simp [Cell.isStr] at hb
    | missing => simp [Cell.isStr] at hb
  | int _ => simp [Cell.isStr] at ha
  | float _ => simp [Cell.isStr] at ha
  | missing => simp [Cell.isStr] at ha

/-- Scalar comparison is transitive on strings. -/
theorem cellLe_trans_str {a b c : Cell} (ha : a.isStr = true) (hb : b.isStr = true)
    (hc : c.isStr = true) (h1 : cellLe a b = true) (h2 : cellLe b c = true) :
    cellLe a c = true := by
  cases a with
  | str s =>
    cases b with
    | str t =>
      cases c with
      | str u => exact charListLe_trans s.data t.data u.data h1 h2
      | int _ => simp [Cell.isStr] at hc
      | float _ => simp [Cell.isStr] at hc
      | missing => simp [Cell.isStr] at hc
    | int _ => simp [Cell.isStr] at hb
    | float _ => simp [Cell.isStr] at hb
    | missing => simp [Cell.isStr] at hb
  | int _ => simp [Cell.isStr] at ha
  | float _ => simp [Cell.isStr] at ha
  | missing => simp [Cell.isStr] at ha

/-- The year key order is total. -/
theorem keyLe_total : ∀ a b : Option Int, (keyLe a b || keyLe b a) = true := by
  intro a b
  cases a <;> cases b <;> simp [keyLe] <;> omega

/-- The year key order is transitive. -/
theorem keyLe_trans : ∀ a b c : Option Int,
    keyLe a b = true → keyLe b c = true → keyLe a c = true := by
  intro a b c
  cases a <;> cases b <;> cases c <;> simp [keyLe] <;> omega

/-- Every list is pairwise related by the trivial relation. -/
theorem pairwise_trivial : ∀ l : List α, l.Pairwise fun _ _ => True := by
  intro l
  induction l with
  | nil => exact List.Pairwise.nil
  | cons x l ih => exact List.pairwise_cons.mpr ⟨fun _ _ => trivial, ih⟩

/-- Inversion of a reshape whose message announces a pivoted table:
the gates passed and the pivot block returned the table. -/
theorem create_pivot_success {df t : Table} {msg : String}
    (h : ApiConvert.create_pivot_table df = (t, msg))
    (hp : msg.data.take 12 = "Pivoted data".data) :
    df.hasCol "Period" = true ∧ df.hasCol "DTVAL_CO" = true ∧
    ApiConvert.pivotRun df (ApiConvert.potential_id_cols.filter fun n => df.hasCol n) =
      .ok t := by
  simp only [ApiConvert.create_pivot_table] at h
  split at h
  · cases h
    exact absurd hp (by decide)
  · next hg =>
    have hg' : (["Period", "DTVAL_CO"].all fun c => df.hasCol c) = true := by
      cases hcc : (["Period", "DTVAL_CO"].all fun c => df.hasCol c)
      · rw [hcc] at hg; simp at hg
      · rfl
    have hboth := List.all_eq_true.mp hg'
    have hper : df.hasCol "Period" = true := hboth _ (by simp)
    have hdt : df.hasCol "DTVAL_CO" = true := hboth _ (by simp)
    split at h
    · cases h
      exact absurd hp (by decide)
    · split at h
      · cases h
        exact absurd hp (by decide)
      · split at h
        · next t' heq =>
          cases h
          exact ⟨hper, hdt, heq⟩
        · next e heq =>
          cases h
          rw [String.append_assoc] at hp
          rw [take_data_append _ (by decide)] at hp
          exact absurd hp (by decide)

/-- Inversion of a successful pivot block run: the pandas sorts were
possible, `reset_index` did not collide, the year columns computed,
and the result is the column selection of the reset pivot table. -/
theorem pivotRun_ok {df : Table} {ids : List String} {t : Table}
    (h : ApiConvert.pivotRun df ids = .ok t) :
    ∃ ycols,
      ApiConvert.yearColsE ids (ids.map Cell.str ++ pivotPersSorted df ids) = .ok ycols ∧
      (keysSortable df ids && persSortable df ids) = true ∧
      ((pivotPersSorted df ids).any fun p => ids.any fun n => cellEq p (.str n)) = false ∧
      t = Table.selectCols
          ⟨ids.map Cell.str ++ pivotPersSorted df ids,
           (pivotKeysSorted df ids).map fun k =>
             k ++ (pivotPersSorted df ids).map (pivotAgg df ids k)⟩
          (ids.map Cell.str ++ ycols) := by
  rw [ApiConvert.pivotRun] at h
  cases hpt : pivotTableReset df ids with
  | error e => rw [hpt] at h; simp at h
  | ok pt =>
    rw [hpt] at h
    rw [pivotTableReset] at hpt
    split at hpt
    · cases hpt
    · split at hpt
      · cases hpt
      · rename_i hno1 hno2
        have hsort' : (keysSortable df ids && persSortable df ids) = true := by
          cases hcc : (keysSortable df ids && persSortable df ids)
          · rw [hcc] at hno1; simp at hno1
          · rfl
        have hcoll' :
            ((pivotPersSorted df ids).any fun p => ids.any fun n => cellEq p (.str n)) =
              false := by
          cases hcc : ((pivotPersSorted df ids).any fun p => ids.any fun n => cellEq p (.str n))
          · rfl
          · rw [hcc] at hno2; simp at hno2
        cases hpt
        dsimp only at h
        cases hy : ApiConvert.yearColsE ids
            (ids.map Cell.str ++ pivotPersSorted df ids) with
        | error e => rw [hy] at h; simp at h
        | ok ycols =>
          rw [hy] at h
          cases h
          exact ⟨ycols, rfl, hsort', hcoll', rfl⟩

/-- Every sorted pivot key is the key tuple of some surviving row. -/
theorem mem_pivotKeysSorted {df : Table} {ids : List String} {k : List Cell}
    (h : k ∈ pivotKeysSorted df ids) :
    ∃ r ∈ keptRows df ids, k = rowKey df ids r := by
  rw [pivotKeysSorted] at h
  have h1 : k ∈ pivotKeys df ids := mem_sortByLe.mp h
  rw [pivotKeys] at h1
  have h2 : k ∈ pivotKeys0 df ids := (List.mem_filter.mp h1).1
  rw [pivotKeys0] at h2
  have h3 := mem_dedupBy h2
  rcases List.mem_map.mp h3 with ⟨r, hr, hk⟩
  exact ⟨r, hr, hk.symm⟩

/-- A key tuple has one entry per identifier column. -/
theorem rowKey_length (df : Table) (ids : List String) (r : List Cell) :
    (rowKey df ids r).length = ids.length := by
  rw [rowKey]
  exact List.length_map _ _

/-- The key tuple of a surviving row has no missing entry. -/
theorem keptRows_key_nonmissing {df : Table} {ids : List String} {r : List Cell}
    (h : r ∈ keptRows df ids) :
    ∀ c ∈ rowKey df ids r, c ≠ Cell.missing := by
  rw [keptRows] at h
  have h2 := (List.mem_filter.mp h).2
  simp only [Bool.and_eq_true] at h2
  intro c hc
  have := List.all_eq_true.mp h2.1 c hc
  simpa using this

/-- Every sorted period label is the `Period` cell of a surviving row. -/
theorem mem_pivotPersSorted {df : Table} {ids : List String} {p : Cell}
    (h : p ∈ pivotPersSorted df ids) :
    ∃ r ∈ keptRows df ids, p = getAt r ((df.colIdx (.str "Period")).getD 0) := by
  rw [pivotPersSorted] at h
  have h1 : p ∈ pivotPers df ids := mem_sortByLe.mp h
  rw [pivotPers] at h1
  have h2 : p ∈ pivotPers0 df ids := (List.mem_filter.mp h1).1
  rw [pivotPers0] at h2
  have h3 := mem_dedupBy h2
  rcases List.mem_map.mp h3 with ⟨r, hr, hk⟩
  exact ⟨r, hr, hk.symm⟩

/-- A sorted period label is never missing. -/
theorem pivotPersSorted_nonmissing {df : Table} {ids : List String} {p : Cell}
    (h : p ∈ pivotPersSorted df ids) : p ≠ Cell.missing := by
  rcases mem_pivotPersSorted h with ⟨r, hr, hp⟩
  rw [keptRows] at hr
  have h2 := (List.mem_filter.mp hr).2
  simp only [Bool.and_eq_true] at h2
  intro hc
  rw [hp] at hc
  rw [← hc] at h2
  simp at h2

/-- Sorted period labels are pairwise distinct under python equality. -/
theorem pairwise_pivotPersSorted (df : Table) (ids : List String) :
    (pivotPersSorted df ids).Pairwise fun a b => cellEq a b = false := by
  rw [pivotPersSorted]
  refine ((perm_sortByLe _ _).pairwise_iff ?_).mpr ?_
  · intro x y hxy
    cases hc : cellEq y x
    · rfl
    · exact absurd (cellEq_symm hc) (by simp [hxy])
  · rw [pivotPers]
    exact List.Pairwise.filter _ pairwise_dedupBy

/-- Searching an appended label list skips a prefix with no match. -/
theorem colIdxAux_append_none {c : Cell} :
    ∀ {a b : List Cell}, (∀ x ∈ a, cellEq x c = false) →
      colIdxAux c (a ++ b) = (colIdxAux c b).map (a.length + ·) := by
  intro a
  induction a with
  | nil =>
    intro b _
    rw [List.nil_append]
    cases colIdxAux c b <;> simp
  | cons x as ih =>
    intro b h
    rw [List.cons_append, colIdxAux,
      if_neg (by simp [h x (List.mem_cons_self _ _)]),
      ih fun y hy => h y (List.mem_cons_of_mem _ hy)]
    cases colIdxAux c b with
    | none => rfl
    | some i => simp [Nat.add_assoc, Nat.add_comm 1 i]

/-- In a list of pairwise-distinct labels, the search for a member
label lands exactly on that label. -/
theorem colIdxAux_resolve {lab : Cell} (hself : cellEq lab lab = true) :
    ∀ {l : List Cell}, lab ∈ l →
      l.Pairwise (fun a b => cellEq a b = false) →
      ∃ m, colIdxAux lab l = some m ∧ m < l.length ∧ l.getD m Cell.missing = lab := by
  intro l
  induction l with
  | nil => intro h _; simp at h
  | cons x ls ih =>
    intro hmem hpw
    by_cases hx : cellEq x lab = true
    · rcases List.mem_cons.mp hmem with heq | hmem'
      · exact ⟨0, by rw [colIdxAux, if_pos hx], by simp, heq.symm⟩
      · exact absurd hx (by simp [List.rel_of_pairwise_cons hpw hmem'])
    · have hmem' : lab ∈ ls := by
        rcases List.mem_cons.mp hmem with heq | hmem'
        · rw [heq] at hself; exact absurd hself (heq ▸ hx)
        · exact hmem'
      rcases ih hmem' (List.Pairwise.of_cons hpw) with ⟨m, hm1, hm2, hm3⟩
      refine ⟨m + 1, ?_, by simpa using Nat.succ_lt_succ hm2, by simpa using hm3⟩
      rw [colIdxAux, if_neg hx, hm1]
      rfl

/-- With pairwise-distinct identifier names, the search for the j-th
identifier label lands on position j, regardless of what follows. -/
theorem colIdxAux_str_front {rest : List Cell} :
    ∀ {names : List String} {j : Nat}, names.Nodup → (hj : j < names.length) →
      colIdxAux (.str names[j]) (names.map Cell.str ++ rest) = some j := by
  intro names
  induction names with
  | nil => intro j _ hj; simp at hj
  | cons n ns ih =>
    intro j hnd hj
    cases j with
    | zero =>
      rw [List.map_cons, List.cons_append, colIdxAux, if_pos]
      simp [cellEq]
    | succ j =>
      have hj' : j < ns.length := Nat.lt_of_succ_lt_succ hj
      have hnm : n ∉ ns := (List.nodup_cons.mp hnd).1
      have hne : cellEq (Cell.str n) (Cell.str ns[j]) = false := by
        have hx : ¬n = ns[j] := fun hc => hnm (hc ▸ List.getElem_mem hj')
        simp [cellEq, hx]
      simp only [List.getElem_cons_succ]
      rw [List.map_cons, List.cons_append, colIdxAux, if_neg (by simp [hne]),
        ih (List.nodup_cons.mp hnd).2 hj']
      rfl

/-- A produced year column label is one of the sorted period labels
and python-equals no identifier column name. -/
theorem yearCols_mem_pers {ids : List String} {pcols : List Cell} {ycols : List Cell}
    (hy : ApiConvert.yearColsE ids pcols = .ok ycols) :
    ∀ lab ∈ ycols,
      lab ∈ pcols ∧ ∀ n ∈ ids, cellEq lab (.str n) = false := by
  rw [ApiConvert.yearColsE] at hy
  cases hm : mapE ApiConvert.yearKeyE
      (pcols.filter fun p => !(ids.any fun n => cellEq p (.str n))) with
  | error e => rw [hm] at hy; simp at hy
  | ok keys =>
    rw [hm] at hy
    cases hy
    intro lab hlab
    rcases List.mem_map.mp hlab with ⟨pair, hpair, hlab'⟩
    have hz := List.of_mem_zip (mem_sortByLe.mp hpair)
    have hc := List.mem_filter.mp hz.1
    rw [← hlab']
    refine ⟨hc.1, fun n hn => ?_⟩
    have h2 := hc.2
    simp only [Bool.not_eq_true'] at h2
    have h3 := List.any_eq_false.mp h2 n hn
    simpa using h3

/-- A tuple that python-equals another has no missing entry. -/
theorem listCellEq_left_nonmissing {a b : List Cell} (h : listCellEq a b = true) :
    ∀ c ∈ a, (c == Cell.missing) = false := by
  rw [listCellEq] at h
  simp only [Bool.and_eq_true, beq_iff_eq] at h
  intro c hc
  rcases List.mem_iff_getElem.mp hc with ⟨i, hi, hci⟩
  have hizip : i < (a.zip b).length := by
    rw [List.length_zip]
    exact Nat.lt_min.mpr ⟨hi, h.1 ▸ hi⟩
  have hall := List.all_eq_true.mp h.2 _ (List.getElem_mem hizip)
  rw [List.getElem_zip] at hall
  subst hci
  cases hcm : a[i] == Cell.missing
  · rfl
  · have hm : a[i] = Cell.missing := by simpa using hcm
    rw [hm, cellEq_missing_left] at hall
    cases hall

/-- A cell that python-equals another is not missing. -/
theorem cellEq_left_nonmissing {a b : Cell} (h : cellEq a b = true) :
    (a == Cell.missing) = false := by
  cases hcm : a == Cell.missing
  · rfl
  · have hm : a = Cell.missing := by simpa using hcm
    rw [hm, cellEq_missing_left] at h
    cases h

/-- The aggregate of each output cell, characterised over the raw
input rows: the first row with a matching key tuple and period and a
non-missing `DTVAL_CO` supplies the value. -/
theorem pivotAgg_eq_first (df : Table) (ids : List String) (k : List Cell) (p : Cell) :
    pivotAgg df ids k p =
      ((df.rows.filter fun row =>
          listCellEq (rowKey df ids row) k &&
          cellEq (getAt row ((df.colIdx (.str "Period")).getD 0)) p &&
          !(getAt row ((df.colIdx (.str "DTVAL_CO")).getD 0) == Cell.missing)).map
        fun row => getAt row ((df.colIdx (.str "DTVAL_CO")).getD 0)).headD Cell.missing := by
  rw [pivotAgg, keptRows, List.filter_map, List.filter_filter, List.filter_filter]
  congr 2
  apply List.filter_congr
  intro row _
  simp only [Function.comp_apply]
  by_cases h1 : listCellEq (rowKey df ids row) k = true
  · by_cases h2 :
        cellEq (getAt row ((df.colIdx (.str "Period")).getD 0)) p = true
    · have hkeys : ((rowKey df ids row).all fun c => !(c == Cell.missing)) = true := by
        rw [List.all_eq_true]
        intro c hc
        rw [listCellEq_left_nonmissing h1 c hc]
        rfl
      rw [h1, h2, hkeys, cellEq_left_nonmissing h2]
      cases getAt row ((df.colIdx (.str "DTVAL_CO")).getD 0) == Cell.missing <;> rfl
    · rw [Bool.not_eq_true] at h2
      rw [h2]
      simp
  · rw [Bool.not_eq_true] at h1
    rw [h1]
    simp

/-- Reading a cell within bounds. -/
theorem getAt_eq_getElem {row : List Cell} {i : Nat} (h : i < row.length) :
    getAt row i = row[i] :=
  List.getD_eq_getElem _ _ h

/-- Structure of each output row of a successful pivot block run: its
identifier prefix is a sorted group key, and each cell beyond the
identifiers is the first-non-missing aggregate for that key and the
period label of its column. -/
theorem pivot_row_cells {df : Table} {ids : List String} {t : Table}
    (hnd : ids.Nodup)
    (hrun : ApiConvert.pivotRun df ids = .ok t)
    {r : List Cell} (hr : r ∈ t.rows) :
    ∃ k ∈ pivotKeysSorted df ids,
      k.length = ids.length ∧
      r.take ids.length = k ∧
      ∀ j, ids.length ≤ j → j < t.cols.length →
        ∃ lab ∈ pivotPersSorted df ids,
          getAt t.cols j = lab ∧ getAt r j = pivotAgg df ids k lab := by
  obtain ⟨ycols, hy, hsort, hcoll, ht⟩ := pivotRun_ok hrun
  subst ht
  simp only [Table.selectCols, Table.colIdx] at hr ⊢
  obtain ⟨prow, hprow, hre⟩ := List.mem_map.mp hr
  obtain ⟨k, hk, hke⟩ := List.mem_map.mp hprow
  obtain ⟨r0, hr0, hk0⟩ := mem_pivotKeysSorted hk
  have klen : k.length = ids.length := by rw [hk0, rowKey_length]
  have hprowlen : ids.length ≤ prow.length := by
    rw [← hke, List.length_append, klen]
    omega
  refine ⟨k, hk, klen, ?_, ?_⟩
  · rw [← hre, ← List.map_take]
    have hlen : ids.length = (ids.map Cell.str).length := (List.length_map _ _).symm
    rw [hlen, List.take_left]
    apply List.ext_getElem
    · rw [List.length_map, List.length_map, klen]
    · intro i h1 h2
      rw [List.getElem_map, List.getElem_map]
      have hi : i < ids.length := by
        rw [List.length_map, List.length_map] at h1
        exact h1
      rw [colIdxAux_str_front hnd hi]
      show getAt prow i = k[i]
      rw [← hke, getAt, List.getD_append _ _ _ _ (klen ▸ hi : i < k.length),
        List.getD_eq_getElem _ _ (klen ▸ hi : i < k.length)]
  · intro j hj1 hj2
    rw [List.length_append, List.length_map] at hj2
    have hylen : j - ids.length < ycols.length := by omega
    have hjlen : j < (List.map Cell.str ids ++ ycols).length := by
      rw [List.length_append, List.length_map]
      omega
    have hlabget :
        getAt (List.map Cell.str ids ++ ycols) j = ycols[j - ids.length] := by
      rw [getAt, List.getD_eq_getElem _ _ hjlen,
        List.getElem_append_right (by rw [List.length_map]; exact hj1)]
      congr 1
      rw [List.length_map]
    have hymem : ycols[j - ids.length] ∈ ycols := List.getElem_mem hylen
    obtain ⟨hlab0, hlabne⟩ := yearCols_mem_pers hy _ hymem
    have hlabpers : ycols[j - ids.length] ∈ pivotPersSorted df ids := by
      rcases List.mem_append.mp hlab0 with hl | hl
      · exfalso
        rcases List.mem_map.mp hl with ⟨n, hn, hne⟩
        have := hlabne n hn
        rw [← hne] at this
        simp [cellEq] at this
      · exact hl
    have hlabmiss : ycols[j - ids.length] ≠ Cell.missing :=
      pivotPersSorted_nonmissing hlabpers
    obtain ⟨m, hm1, hm2, hm3⟩ :=
      colIdxAux_resolve (cellEq_refl hlabmiss) hlabpers
        (pairwise_pivotPersSorted df ids)
    have hprefix : ∀ x ∈ List.map Cell.str ids, cellEq x ycols[j - ids.length] = false := by
      intro x hx
      rcases List.mem_map.mp hx with ⟨n, hn, hne⟩
      cases hc : cellEq x ycols[j - ids.length]
      · rfl
      · have := cellEq_symm hc
        rw [← hne] at this
        rw [hlabne n hn] at this
        cases this
    refine ⟨ycols[j - ids.length], hlabpers, hlabget, ?_⟩
    have hjlab : j < ((List.map Cell.str ids ++ ycols).map fun lab =>
        getAt prow ((colIdxAux lab (List.map Cell.str ids ++ pivotPersSorted df ids)).getD 0)).length := by
      rw [List.length_map]
      exact hjlen
    rw [← hre, getAt_eq_getElem hjlab, List.getElem_map,
      List.getElem_append_right (by rw [List.length_map]; exact hj1)]
    simp only [List.length_map]
    rw [colIdxAux_append_none hprefix, hm1]
    simp only [List.length_map, Option.map_some, Option.getD_some]
    show getAt prow (ids.length + m) = _
    rw [← hke, getAt, List.getD_append_right _ _ _ _ (by rw [klen]; omega)]
    rw [show ids.length + m - k.length = m from by rw [klen]; omega]
    have hmlen : m < ((pivotPersSorted df ids).map (pivotAgg df ids k)).length := by
      rw [List.length_map]
      exact hm2
    rw [List.getD_eq_getElem _ _ hmlen, List.getElem_map]
    congr 1
    rw [← hm3, List.getD_eq_getElem _ _ hm2]

/-- C2 (counterexample): two rows share the key (CODE 1, period 2020)
with different `DTVAL_CO` values — the first is missing, the second is
5 — yet the wide cell holds 5, the value of the second row, because
pandas `first` aggregation takes the first non-missing value, not the
value of the first row. -/
theorem claim_c2_counterexample :
    getAt (c2Df.rows.getD 0 []) 2 = Cell.missing ∧
    getAt (c2Df.rows.getD 1 []) 2 = Cell.int 5 ∧
    ApiConvert.create_pivot_table c2Df =
      (⟨[.str "CODE", .int 2020, .int 2021], [[.int 1, .int 5, .int 7]]⟩,
       "Pivoted data: 1 categories across 2 periods") ∧
    Cell.int 5 ≠ Cell.missing := by
  refine ⟨rfl, rfl, rfl, by decide⟩

/-- C2 (amended): in every wide table produced by reshape, the cell
for an identifier tuple and a period column equals the `DTVAL_CO`
value of the first input row with that key tuple and period whose
`DTVAL_CO` is not missing; rows with a missing `DTVAL_CO` are skipped,
and among non-missing duplicates the earliest row wins, with later
ones dropped rather than averaged or overwritten. -/
theorem claim_c2_stable_first_nonmissing (df t : Table) (msg : String)
    (h : ApiConvert.create_pivot_table df = (t, msg))
    (hp : msg.data.take 12 = "Pivoted data".data)
    (r : List Cell) (hr : r ∈ t.rows) (j : Nat)
    (hj1 : (ApiConvert.potential_id_cols.filter fun n => df.hasCol n).length ≤ j)
    (hj2 : j < t.cols.length) :
    getAt r j =
      ((df.rows.filter fun row =>
          listCellEq
            (rowKey df (ApiConvert.potential_id_cols.filter fun n => df.hasCol n) row)
            (r.take (ApiConvert.potential_id_cols.filter fun n => df.hasCol n).length) &&
          cellEq (getAt row ((df.colIdx (.str "Period")).getD 0)) (getAt t.cols j) &&
          !(getAt row ((df.colIdx (.str "DTVAL_CO")).getD 0) == Cell.missing)).map
        fun row => getAt row ((df.colIdx (.str "DTVAL_CO")).getD 0)).headD Cell.missing := by
  obtain ⟨hper, hdtc, hrun⟩ := create_pivot_success h hp
  have hnd : (ApiConvert.potential_id_cols.filter fun n => df.hasCol n).Nodup :=
    List.Nodup.filter _ (by decide)
  obtain ⟨k, hk, klen, htake, hcells⟩ := pivot_row_cells hnd hrun hr
  obtain ⟨lab, hlabpers, hcol, hcell⟩ := hcells j hj1 hj2
  rw [htake, hcol, hcell, pivotAgg_eq_first]

/-- Closed instance of C2's amended statement: with duplicate rows
(CODE 1, 2020, 5) then (CODE 1, 2020, 9), the wide cell holds 5, the
first non-missing value. -/
theorem claim_c2_stable_first_nonmissing_witness :
    getAt [Cell.int 1, Cell.int 5, Cell.int 7] 1 =
      ((c2wDf.rows.filter fun row =>
          listCellEq
            (rowKey c2wDf (ApiConvert.potential_id_cols.filter fun n => c2wDf.hasCol n) row)
            ([Cell.int 1, Cell.int 5, Cell.int 7].take
              (ApiConvert.potential_id_cols.filter fun n => c2wDf.hasCol n).length) &&
          cellEq (getAt row ((c2wDf.colIdx (.str "Period")).getD 0))
            (getAt ([Cell.str "CODE", Cell.int 2020, Cell.int 2021]) 1) &&
          !(getAt row ((c2wDf.colIdx (.str "DTVAL_CO")).getD 0) == Cell.missing)).map
        fun row => getAt row ((c2wDf.colIdx (.str "DTVAL_CO")).getD 0)).headD Cell.missing :=
  claim_c2_stable_first_nonmissing c2wDf
    ⟨[.str "CODE", .int 2020, .int 2021], [[.int 1, .int 5, .int 7]]⟩
    "Pivoted data: 1 categories across 2 periods" rfl (by decide)
    [Cell.int 1, Cell.int 5, Cell.int 7] (by decide) 1 (by decide) (by decide)

/-- C9: rows whose identifier columns contain a missing value
contribute nothing to the wide table.  Dropping them from the input
leaves the pivot block's result unchanged; every surviving output row
has non-missing cells in all identifier positions; and a `CODE` string
that fails numeric parsing coerces to missing during extraction, so
such records are silently absent from the pivoted output. -/
theorem claim_c9_missing_ids_dropped :
    (∀ (df : Table) (ids : List String),
      ApiConvert.pivotRun (dropMissingIdRows df ids) ids = ApiConvert.pivotRun df ids) ∧
    (∀ (df t : Table) (msg : String),
      ApiConvert.create_pivot_table df = (t, msg) →
      msg.data.take 12 = "Pivoted data".data →
      ∀ r ∈ t.rows, ∀ j < (ApiConvert.potential_id_cols.filter fun n => df.hasCol n).length,
        getAt r j ≠ Cell.missing) ∧
    (∀ s : String, pyNumParse s = none → toNumericCell (.str s) = Cell.missing) := by
  refine ⟨fun df ids => ?_, fun df t msg h hp r hr j hj => ?_, fun s h => ?_⟩
  · have hkept : keptRows (dropMissingIdRows df ids) ids = keptRows df ids := by
      have heq : keptRows (dropMissingIdRows df ids) ids =
          (df.rows.filter fun r =>
            (rowKey df ids r).all fun c => !(c == Cell.missing)).filter
            fun r => ((rowKey df ids r).all fun c => !(c == Cell.missing)) &&
              !(getAt r ((df.colIdx (.str "Period")).getD 0) == Cell.missing) := rfl
      rw [heq, List.filter_filter, keptRows]
      apply List.filter_congr
      intro r _
      cases hA : (rowKey df ids r).all fun c => !(c == Cell.missing) <;>
        cases hB : !(getAt r ((df.colIdx (.str "Period")).getD 0) == Cell.missing) <;>
        simp [hA, hB]
    have hrk : rowKey (dropMissingIdRows df ids) ids = rowKey df ids := rfl
    have hci : (dropMissingIdRows df ids).colIdx = df.colIdx := rfl
    have hagg : pivotAgg (dropMissingIdRows df ids) ids = pivotAgg df ids := by
      funext k p
      simp only [pivotAgg, hkept, hci, hrk]
    simp only [ApiConvert.pivotRun, pivotTableReset, keysSortable, persSortable,
      pivotKeysSorted, pivotPersSorted, pivotKeys, pivotPers, pivotKeys0, pivotPers0,
      hagg, hkept, hrk, hci]
  · obtain ⟨hper, hdtc, hrun⟩ := create_pivot_success h hp
    have hnd : (ApiConvert.potential_id_cols.filter fun n => df.hasCol n).Nodup :=
      List.Nodup.filter _ (by decide)
    obtain ⟨k, hk, klen, htake, _⟩ := pivot_row_cells hnd hrun hr
    obtain ⟨r0, hr0, hk0⟩ := mem_pivotKeysSorted hk
    have hknm : ∀ c ∈ k, c ≠ Cell.missing := by
      rw [hk0]
      exact keptRows_key_nonmissing hr0
    have hjk : j < k.length := klen ▸ hj
    have htlen : j <
        (r.take (ApiConvert.potential_id_cols.filter fun n => df.hasCol n).length).length := by
      rw [htake]
      exact hjk
    have hrlen : j < r.length := by
      have := htlen
      rw [List.length_take] at this
      omega
    have hgr : getAt r j = getAt k j := by
      rw [← htake, getAt_eq_getElem htlen, getAt_eq_getElem hrlen]
      exact (List.getElem_take ..).symm
    rw [hgr, getAt_eq_getElem hjk]
    exact hknm _ (List.getElem_mem hjk)
  · simp [toNumericCell, h]

/-- Closed instance of C9: in a pivot of a table whose first row has a
missing CODE, the surviving output key cell is non-missing, and the
non-numeric CODE text "A" coerces to missing. -/
theorem claim_c9_missing_ids_dropped_witness :
    getAt [Cell.int 1, Cell.int 5, Cell.int 7] 0 ≠ Cell.missing ∧
    toNumericCell (.str "A") = Cell.missing :=
  ⟨claim_c9_missing_ids_dropped.2.1 c9wDf
      ⟨[Cell.str "CODE", Cell.int 2020, Cell.int 2021], [[Cell.int 1, Cell.int 5, Cell.int 7]]⟩
      "Pivoted data: 1 categories across 2 periods" rfl (by decide)
      [Cell.int 1, Cell.int 5, Cell.int 7] (by decide) 0 (by decide),
   claim_c9_missing_ids_dropped.2.2 "A" rfl⟩

/-- Every distinct period value of a table whose `Period` column holds
only strings and missings is a string. -/
theorem pivotPers_isStr {df : Table} {ids : List String}
    (hper : df.hasCol "Period" = true)
    (hstr : ∀ c ∈ df.col "Period", c = Cell.missing ∨ ∃ s, c = Cell.str s) :
    ∀ p ∈ pivotPers df ids, p.isStr = true := by
  intro p hp
  rw [pivotPers] at hp
  have hp1 : p ∈ pivotPers0 df ids := (List.mem_filter.mp hp).1
  rw [pivotPers0] at hp1
  rcases List.mem_map.mp (mem_dedupBy hp1) with ⟨r, hrk, hpr⟩
  rw [keptRows] at hrk
  have hrdf : r ∈ df.rows := (List.mem_filter.mp hrk).1
  have hnm : p ≠ Cell.missing := by
    have h2 := (List.mem_filter.mp hrk).2
    simp only [Bool.and_eq_true] at h2
    intro hc
    rw [hpr, hc] at h2
    simp at h2
  have hmemcol : p ∈ df.col "Period" := by
    rw [Table.col]
    rw [Table.hasCol] at hper
    cases hci : df.colIdx (.str "Period") with
    | none => rw [hci] at hper; simp at hper
    | some i =>
      rw [hci] at hpr
      exact List.mem_map.mpr ⟨r, hrdf, hpr⟩
  rcases hstr p hmemcol with hc | ⟨s, hc⟩
  · exact absurd hc hnm
  · rw [hc]
    rfl

/-- C3 (counterexample): with string periods encountered in the order
2020, xyz, abc, 2021, the two non-numeric labels appear in the output
as abc then xyz — their ascending string order — not in their
encounter order xyz then abc as the claim requires. -/
theorem claim_c3_counterexample :
    Table.col c3Df "Period" =
      [.str "2020", .str "xyz", .str "abc", .str "2021"] ∧
    (ApiConvert.create_pivot_table c3Df).1.cols =
      [.str "CODE", .str "2020", .str "2021", .str "abc", .str "xyz"] ∧
    [Cell.str "abc", Cell.str "xyz"] ≠ [Cell.str "xyz", Cell.str "abc"] := by
  refine ⟨rfl, rfl, by decide⟩

/-- C3 (amended): in every wide table produced by reshape from a table
whose period values are strings, the identifier columns come first in
priority-list order, and the period columns are ordered by the year
sort key — ascending by integer value for labels that parse, with
every non-parsing label after all parsing ones — while labels with
equal keys (in particular all non-parsing labels) appear in ascending
string order, not encounter order. -/
theorem claim_c3_period_column_order (df t : Table) (msg : String)
    (h : ApiConvert.create_pivot_table df = (t, msg))
    (hp : msg.data.take 12 = "Pivoted data".data)
    (hstr : ∀ c ∈ df.col "Period", c = Cell.missing ∨ ∃ s, c = Cell.str s) :
    t.cols.take (ApiConvert.potential_id_cols.filter fun n => df.hasCol n).length =
      (ApiConvert.potential_id_cols.filter fun n => df.hasCol n).map Cell.str ∧
    (t.cols.drop (ApiConvert.potential_id_cols.filter fun n => df.hasCol n).length).Pairwise
      fun a b => keyLe (yearKeyD a) (yearKeyD b) = true ∧
        (yearKeyD a = none → yearKeyD b = none → cellLe a b = true) := by
  obtain ⟨hper, hdtc, hrun⟩ := create_pivot_success h hp
  obtain ⟨ycols, hy, hsort, hcoll, ht⟩ := pivotRun_ok hrun
  subst ht
  simp only [Table.selectCols]
  have hlen : (ApiConvert.potential_id_cols.filter fun n => df.hasCol n).length =
      ((ApiConvert.potential_id_cols.filter fun n => df.hasCol n).map Cell.str).length :=
    (List.length_map _ _).symm
  refine ⟨by rw [hlen, List.take_left], ?_⟩
  rw [hlen, List.drop_left]
  simp only [ApiConvert.yearColsE] at hy
  cases hm : mapE ApiConvert.yearKeyE
      (((ApiConvert.potential_id_cols.filter fun n => df.hasCol n).map Cell.str ++
          pivotPersSorted df (ApiConvert.potential_id_cols.filter fun n => df.hasCol n)).filter
        fun p => !((ApiConvert.potential_id_cols.filter fun n => df.hasCol n).any
          fun n => cellEq p (.str n))) with
  | error e => rw [hm] at hy; simp at hy
  | ok keys =>
    rw [hm] at hy
    cases hy
    have hcands :
        (((ApiConvert.potential_id_cols.filter fun n => df.hasCol n).map Cell.str ++
            pivotPersSorted df (ApiConvert.potential_id_cols.filter fun n => df.hasCol n)).filter
          fun p => !((ApiConvert.potential_id_cols.filter fun n => df.hasCol n).any
            fun n => cellEq p (.str n))) =
        (pivotPersSorted df
            (ApiConvert.potential_id_cols.filter fun n => df.hasCol n)).filter
          fun p => !((ApiConvert.potential_id_cols.filter fun n => df.hasCol n).any
            fun n => cellEq p (.str n)) := by
      rw [List.filter_append]
      have hnil :
          (((ApiConvert.potential_id_cols.filter fun n => df.hasCol n).map Cell.str).filter
            fun p => !((ApiConvert.potential_id_cols.filter fun n => df.hasCol n).any
              fun n => cellEq p (.str n))) = [] := by
        rw [List.filter_eq_nil_iff]
        intro x hx
        rcases List.mem_map.mp hx with ⟨n, hn, hne⟩
        have hany : ((ApiConvert.potential_id_cols.filter fun n => df.hasCol n).any
            fun m => cellEq x (.str m)) = true :=
          List.any_eq_true.mpr ⟨n, hn, by rw [← hne]; simp [cellEq]⟩
        simp [hany]
      rw [hnil, List.nil_append]
    rw [hcands] at hm ⊢
    have hisStr : ∀ p ∈ pivotPersSorted df
        (ApiConvert.potential_id_cols.filter fun n => df.hasCol n), p.isStr = true := by
      intro p hpmem
      rw [pivotPersSorted] at hpmem
      exact pivotPers_isStr hper hstr p (mem_sortByLe.mp hpmem)
    have hpersPW : (pivotPersSorted df
        (ApiConvert.potential_id_cols.filter fun n => df.hasCol n)).Pairwise
        fun a b => cellLe a b = true := by
      rw [pivotPersSorted]
      have hstep := @pairwise_sortByLe _ cellLe (fun _ _ => True)
        (fun c => c.isStr = true)
        (fun a b ha hb => cellLe_total_str ha hb)
        (fun a b c ha hb hc => cellLe_trans_str ha hb hc)
        (pivotPers df (ApiConvert.potential_id_cols.filter fun n => df.hasCol n))
        (fun y hy2 => pivotPers_isStr hper hstr y hy2)
        (pairwise_trivial _)
      exact hstep.imp fun hh => hh.1
    have hcandsPW := hpersPW.filter
      fun p => !((ApiConvert.potential_id_cols.filter fun n => df.hasCol n).any
        fun n => cellEq p (.str n))
    have hklen := mapE_ok_length hm
    have hzip := mapE_ok_zip hm
    have hfst := List.map_fst_zip
      ((pivotPersSorted df
          (ApiConvert.potential_id_cols.filter fun n => df.hasCol n)).filter
        fun p => !((ApiConvert.potential_id_cols.filter fun n => df.hasCol n).any
          fun n => cellEq p (.str n))) keys (le_of_eq hklen.symm)
    have hzipPW : (((pivotPersSorted df
        (ApiConvert.potential_id_cols.filter fun n => df.hasCol n)).filter
          fun p => !((ApiConvert.potential_id_cols.filter fun n => df.hasCol n).any
            fun n => cellEq p (.str n))).zip keys).Pairwise
        fun a b => cellLe a.1 b.1 = true := by
      rw [← hfst] at hcandsPW
      exact List.pairwise_map.mp hcandsPW
    have hsorted := @pairwise_sortByLe _
      (fun a b : Cell × Option Int => keyLe a.2 b.2)
      (fun a b : Cell × Option Int => cellLe a.1 b.1 = true)
      (fun _ => True)
      (fun a b _ _ => keyLe_total _ _)
      (fun a b c _ _ _ h1 h2 => keyLe_trans _ _ _ h1 h2)
      _ (fun _ _ => trivial) hzipPW
    rw [List.pairwise_map]
    refine List.Pairwise.imp_of_mem ?_ hsorted
    intro a b ha hb hab
    have hka := hzip a (mem_sortByLe.mp ha)
    have hkb := hzip b (mem_sortByLe.mp hb)
    have hda : yearKeyD a.1 = a.2 := by rw [yearKeyD, hka]
    have hdb : yearKeyD b.1 = b.2 := by rw [yearKeyD, hkb]
    refine ⟨by rw [hda, hdb]; exact hab.1, fun hna hnb => ?_⟩
    apply hab.2
    show keyLe b.2 a.2 = true
    first
      | (rw [hna, hnb]; rfl)
      | (rw [← hda, ← hdb, hna, hnb]; rfl)

/-- Closed instance of C3's amended statement at the spec's period set
2021, 1999, abc, 2005, whose output columns come out as CODE, 1999,
2005, 2021, abc. -/
theorem claim_c3_period_column_order_witness :
    (⟨[Cell.str "CODE", Cell.str "1999", Cell.str "2005", Cell.str "2021", Cell.str "abc"],
      [[Cell.int 7, Cell.int 2, Cell.int 4, Cell.int 1, Cell.int 3]]⟩ : Table).cols.take
        (ApiConvert.potential_id_cols.filter fun n => c3wDf.hasCol n).length =
      (ApiConvert.potential_id_cols.filter fun n => c3wDf.hasCol n).map Cell.str ∧
    ((⟨[Cell.str "CODE", Cell.str "1999", Cell.str "2005", Cell.str "2021", Cell.str "abc"],
      [[Cell.int 7, Cell.int 2, Cell.int 4, Cell.int 1, Cell.int 3]]⟩ : Table).cols.drop
        (ApiConvert.potential_id_cols.filter fun n => c3wDf.hasCol n).length).Pairwise
      (fun a b => keyLe (yearKeyD a) (yearKeyD b) = true ∧
        (yearKeyD a = none → yearKeyD b = none → cellLe a b = true)) :=
  claim_c3_period_column_order c3wDf
    ⟨[Cell.str "CODE", Cell.str "1999", Cell.str "2005", Cell.str "2021", Cell.str "abc"],
     [[Cell.int 7, Cell.int 2, Cell.int 4, Cell.int 1, Cell.int 3]]⟩
    "Pivoted data: 1 categories across 4 periods" rfl (by decide)
    (by
      intro c hc
      have hc2 : c ∈ ([Cell.str "2021", Cell.str "1999", Cell.str "abc", Cell.str "2005"] :
          List Cell) := hc
      simp only [List.mem_cons, List.not_mem_nil, or_false] at hc2
      rcases hc2 with rfl | rfl | rfl | rfl
      · exact Or.inr ⟨_, rfl⟩
      · exact Or.inr ⟨_, rfl⟩
      · exact Or.inr ⟨_, rfl⟩
      · exact Or.inr ⟨_, rfl⟩)

/-- C10: the extraction and reshape functions of `src/api/convert.py`
and of `src/xml_to_xlsx_converter.py` are extensionally equal: on the
same parsed document, both `parse_xml_to_dataframe` definitions return
the same table and message, and on the same table, both
`create_pivot_table` definitions return the same table and message. -/
theorem claim_c10_duplicate_files_agree :
    (∀ root : Element,
      ApiConvert.parse_xml_to_dataframe root = BatchConvert.parse_xml_to_dataframe root) ∧
    (∀ df : Table,
      ApiConvert.create_pivot_table df = BatchConvert.create_pivot_table df) :=
  ⟨fun _ => rfl, fun _ => rfl⟩

/-- C1: evaluation of the spec's concrete scenario on the code.  After
extraction the mandated numeric coercion turns every `CODE` value
("A", "A", "B") into a missing value, the pivot drops all three rows
because their index keys are missing, and reshaping returns an empty
one-column table with the message "Pivoted data: 0 categories across 0
periods" — not the two rows keyed A and B with columns
[CODE, 2020, 2021] and the message "Pivoted data: 2 categories across
2 periods" that the claim requires. -/
theorem claim_c1_concrete_scenario :
    ApiConvert.parse_xml_to_dataframe c1Doc =
      (some ⟨[.str "CODE", .str "Period", .str "DTVAL_CO"],
             [[.missing, .int 2020, .int 5], [.missing, .int 2021, .int 7],
              [.missing, .int 2020, .int 3]]⟩,
       "Successfully parsed 3 records") ∧
    ApiConvert.create_pivot_table
        ⟨[.str "CODE", .str "Period", .str "DTVAL_CO"],
         [[.missing, .int 2020, .int 5], [.missing, .int 2021, .int 7],
          [.missing, .int 2020, .int 3]]⟩ =
      (⟨[.str "CODE"], []⟩, "Pivoted data: 0 categories across 0 periods") := by
  constructor
  · rfl
  · rfl

/-- C5: the three reshape eligibility gates are checked in order and
short-circuit.  A table without `Period` or `DTVAL_CO` is returned
unmodified with "No pivot - missing required columns"; otherwise a
table with none of the identifier columns is returned unmodified with
"No pivot - no identifier columns found"; otherwise a table whose
`Period` column has at most one distinct (non-missing) value is
returned unmodified with "No pivot - only one period found". -/
theorem claim_c5_eligibility_gates :
    (∀ df : Table, (["Period", "DTVAL_CO"].all fun c => df.hasCol c) = false →
      ApiConvert.create_pivot_table df = (df, "No pivot - missing required columns")) ∧
    (∀ df : Table, (["Period", "DTVAL_CO"].all fun c => df.hasCol c) = true →
      (ApiConvert.potential_id_cols.filter fun n => df.hasCol n) = [] →
      ApiConvert.create_pivot_table df = (df, "No pivot - no identifier columns found")) ∧
    (∀ df : Table, (["Period", "DTVAL_CO"].all fun c => df.hasCol c) = true →
      (ApiConvert.potential_id_cols.filter fun n => df.hasCol n) ≠ [] →
      nunique (df.col "Period") ≤ 1 →
      ApiConvert.create_pivot_table df = (df, "No pivot - only one period found")) := by
  refine ⟨fun df h1 => ?_, fun df h1 h2 => ?_, fun df h1 h2 h3 => ?_⟩
  · simp [ApiConvert.create_pivot_table, h1]
  · simp [ApiConvert.create_pivot_table, h1, h2]
  · simp [ApiConvert.create_pivot_table, h1, h2, h3, List.isEmpty_iff]

/-- Closed instances of the three gate conclusions of C5, one table
per gate. -/
theorem claim_c5_eligibility_gates_witness :
    ApiConvert.create_pivot_table c5aDf = (c5aDf, "No pivot - missing required columns") ∧
    ApiConvert.create_pivot_table c5bDf = (c5bDf, "No pivot - no identifier columns found") ∧
    ApiConvert.create_pivot_table c5cDf = (c5cDf, "No pivot - only one period found") :=
  ⟨claim_c5_eligibility_gates.1 c5aDf (by decide),
   claim_c5_eligibility_gates.2.1 c5bDf (by decide) (by decide),
   claim_c5_eligibility_gates.2.2 c5cDf (by decide) (by decide) (by decide)⟩

/-- C4: reshape never fails hard.  When the table passes the three
eligibility gates and the pivot block raises, reshape returns the
original table with the message "Pivot failed: {error}, using original
format"; and on every input whatsoever, reshape returns either the
original table unchanged or the successfully pivoted table. -/
theorem claim_c4_graceful_degradation :
    (∀ (df : Table) (e : String),
      (["Period", "DTVAL_CO"].all fun c => df.hasCol c) = true →
      (ApiConvert.potential_id_cols.filter fun n => df.hasCol n) ≠ [] →
      1 < nunique (df.col "Period") →
      ApiConvert.pivotRun df (ApiConvert.potential_id_cols.filter fun n => df.hasCol n) =
        .error e →
      ApiConvert.create_pivot_table df =
        (df, "Pivot failed: " ++ e ++ ", using original format")) ∧
    (∀ df : Table, (ApiConvert.create_pivot_table df).1 = df ∨
      ApiConvert.pivotRun df (ApiConvert.potential_id_cols.filter fun n => df.hasCol n) =
        .ok (ApiConvert.create_pivot_table df).1) := by
  constructor
  · intro df e h1 h2 h3 h4
    simp [ApiConvert.create_pivot_table, h1, h2, Nat.not_le.mpr h3, h4]
  · intro df
    simp only [ApiConvert.create_pivot_table]
    split
    · exact Or.inl rfl
    · split
      · exact Or.inl rfl
      · split
        · exact Or.inl rfl
        · split
          next t' heq => exact Or.inr (by rw [heq])
          next e heq => exact Or.inl rfl

/-- Closed instance of C4's failure branch: a table whose period label
"5-5" makes the year sort key raise inside the pivot block, so reshape
returns the original table with the documented fallback message. -/
theorem claim_c4_graceful_degradation_witness :
    ApiConvert.create_pivot_table c4Df =
      (c4Df,
       "Pivot failed: ValueError: invalid literal for int with base 10: 5-5, using original format") :=
  claim_c4_graceful_degradation.1 c4Df
    "ValueError: invalid literal for int with base 10: 5-5"
    (by decide) (by decide) (by decide) (by rfl)

/-- A `.//name` search returns nothing exactly when no proper
descendant carries the tag. -/
theorem findFirst_eq_none {e : Element} {name : String} :
    findFirst e name = none ↔ ∀ d ∈ descendants e, d.tag ≠ name := by
  rw [findFirst, findAll, List.head?_eq_none_iff, List.filter_eq_nil_iff]
  constructor
  · intro h d hd heq
    exact h d hd (by simp [heq])
  · intro h d hd hpred
    exact h d hd (by simpa using hpred)

/-- A successful `.//name` search returns a proper descendant carrying
the tag. -/
theorem findFirst_some_mem {e : Element} {name : String} {d : Element}
    (h : findFirst e name = some d) : d ∈ descendants e ∧ d.tag = name := by
  rw [findFirst] at h
  have hm : d ∈ findAll e name := by
    cases hl : findAll e name with
    | nil => rw [hl] at h; cases h
    | cons x xs =>
      rw [hl] at h
      simp only [List.head?] at h
      cases h
      exact List.mem_cons_self _ _
  rw [findAll, List.mem_filter] at hm
  exact ⟨hm.1, by simpa using hm.2⟩

/-- C6, counterexample: the `.//DataList` searches only see proper
descendants, so a well-formed document whose root element itself is
`DataList` extracts to the failure message "No DataList found in XML"
although a `DataList` element occurs in the tree. -/
theorem claim_c6_counterexample :
    anyTag c6Doc "DataList" = true ∧
    ApiConvert.parse_xml_to_dataframe c6Doc = (none, "No DataList found in XML") :=
  ⟨rfl, rfl⟩

/-- C6 (amended): the container lookup covers the proper descendants
of the root, not the root itself.  Extraction reports "No DataList
found in XML" exactly when no proper descendant of the root is tagged
`DataList`, either under the documented namespace URI or bare. -/
theorem claim_c6_container_search (root : Element) :
    (ApiConvert.parse_xml_to_dataframe root).2 = "No DataList found in XML" ↔
      ∀ d ∈ descendants root, d.tag ≠ nsWrap "DataList" ∧ d.tag ≠ "DataList" := by
  cases hdl : ApiConvert.findDataList root with
  | none =>
    have h1 : findFirst root (nsWrap "DataList") = none := by
      rw [ApiConvert.findDataList] at hdl
      cases hf : findFirst root (nsWrap "DataList") with
      | none => rfl
      | some e => rw [hf] at hdl; simp at hdl
    have h2 : findFirst root "DataList" = none := by
      rw [ApiConvert.findDataList, h1] at hdl
      exact hdl
    simp only [ApiConvert.parse_xml_to_dataframe, hdl]
    constructor
    · intro _ d hd
      exact ⟨findFirst_eq_none.mp h1 d hd, findFirst_eq_none.mp h2 d hd⟩
    · intro _
      trivial
  | some dl =>
    have hmem : ∃ d ∈ descendants root,
        d.tag = nsWrap "DataList" ∨ d.tag = "DataList" := by
      rw [ApiConvert.findDataList] at hdl
      cases hf : findFirst root (nsWrap "DataList") with
      | some e =>
        obtain ⟨hm, ht⟩ := findFirst_some_mem hf
        exact ⟨e, hm, Or.inl ht⟩
      | none =>
        rw [hf] at hdl
        obtain ⟨hm, ht⟩ :=
          findFirst_some_mem (show findFirst root "DataList" = some dl from hdl)
        exact ⟨dl, hm, Or.inr ht⟩
    simp only [ApiConvert.parse_xml_to_dataframe, hdl]
    constructor
    · intro hmsg
      exfalso
      by_cases hrec :
          ((ApiConvert.findTNs dl).map ApiConvert.buildRecord).isEmpty = true
      · rw [if_pos hrec] at hmsg
        exact absurd hmsg (by decide)
      · rw [if_neg hrec] at hmsg
        have hmsg' : ("Successfully parsed " ++
            toString ((ApiConvert.findTNs dl).map ApiConvert.buildRecord).length ++
            " records" : String) = "No DataList found in XML" := hmsg
        have hq : ("Successfully parsed " ++
            toString ((ApiConvert.findTNs dl).map ApiConvert.buildRecord).length ++
            " records" : String).data.take 20 =
            ("No DataList found in XML" : String).data.take 20 := by
          rw [hmsg']
        rw [String.append_assoc] at hq
        rw [take_data_append _ (by decide)] at hq
        exact absurd hq (by decide)
    · intro hall
      exfalso
      obtain ⟨d, hd, hor⟩ := hmem
      rcases hor with h | h
      · exact (hall d hd).1 h
      · exact (hall d hd).2 h

/-- Rebuilding a string from its character list gives it back. -/
theorem mk_data_eq (s : String) : String.mk s.data = s := by
  cases s
  rfl

/-- A character list that does not `contains` a character has no
occurrence of it. -/
theorem contains_false_not_mem {l : List Char} {c : Char}
    (h : l.contains c = false) : c ∉ l := by
  intro hm
  have ht : l.contains c = true := List.elem_eq_true_of_mem hm
  rw [ht] at h
  exact Bool.noConfusion h

/-- A character list `contains` each of its members. -/
theorem mem_contains_true {l : List Char} {c : Char} (h : c ∈ l) :
    l.contains c = true :=
  List.elem_eq_true_of_mem h

/-- String equality testing cancels a shared prefix. -/
theorem append_beq_cancel (a t s : String) :
    ((a ++ t) == (a ++ s)) = (t == s) := by
  by_cases h : t = s
  · rw [h]
    simp
  · have hne : ¬(a ++ t = a ++ s) := by
      intro hc
      have hd := congrArg String.data hc
      rw [String.data_append, String.data_append] at hd
      have hts := List.append_cancel_left hd
      exact h (by rw [← mk_data_eq t, ← mk_data_eq s, hts])
    rw [beq_eq_false_iff_ne.mpr hne, beq_eq_false_iff_ne.mpr h]

/-- A brace-free string never equals a namespace-qualified name. -/
theorem bare_ne_wrap {t : String} (h : t.data.contains '\x7b' = false)
    (name : String) : t ≠ nsWrap name := by
  intro hc
  rw [hc] at h
  have hm : '\x7b' ∈ (nsWrap name).data := by
    rw [nsWrap, String.data_append, String.data_append, String.data_append]
    exact List.mem_append_left _
      (List.mem_append_left _ (List.mem_append_left _ (by decide)))
  rw [mem_contains_true hm] at h
  exact Bool.noConfusion h

/-- A namespace-qualified tag never equals a brace-free name. -/
theorem wrap_ne_bare {s : String} (h : s.data.contains '\x7b' = false)
    (t : String) : ("\x7b" ++ nsUri ++ "\x7d" ++ t) ≠ s := by
  intro hc
  rw [← hc] at h
  have hm : '\x7b' ∈ ("\x7b" ++ nsUri ++ "\x7d" ++ t).data := by
    rw [String.data_append, String.data_append, String.data_append]
    exact List.mem_append_left _
      (List.mem_append_left _ (List.mem_append_left _ (by decide)))
  rw [mem_contains_true hm] at h
  exact Bool.noConfusion h

/-- A python split never returns an empty list of parts. -/
theorem charSplit_ne_nil (c : Char) : ∀ l, charSplit c l ≠ []
  | [] => by simp [charSplit]
  | x :: rest => by
    rw [charSplit]
    split
    · simp
    · split
      · simp
      · simp

/-- Splitting at an absent character keeps the list whole. -/
theorem charSplit_not_mem (c : Char) : ∀ {l : List Char}, c ∉ l →
    charSplit c l = [l]
  | [], _ => rfl
  | x :: rest, h => by
    have hx : ¬((x == c) = true) := by
      simp only [beq_iff_eq]
      intro hc
      exact h (hc ▸ List.mem_cons_self x rest)
    rw [charSplit, if_neg hx,
      charSplit_not_mem c fun hm => h (List.mem_cons_of_mem x hm)]

/-- Splitting at a character that occurs yields at least two parts. -/
theorem charSplit_mem_length (c : Char) : ∀ l, c ∈ l →
    2 ≤ (charSplit c l).length
  | [] => by intro hm; cases hm
  | x :: rest => by
    intro hm
    rw [charSplit]
    by_cases hx : (x == c) = true
    · rw [if_pos hx, List.length_cons]
      have h2 : 0 < (charSplit c rest).length :=
        List.length_pos.mpr (charSplit_ne_nil c rest)
      omega
    · rw [if_neg hx]
      have hmr : c ∈ rest := by
        rcases List.mem_cons.mp hm with h | h
        · exact absurd (by simp [h]) hx
        · exact h
      have hlen := charSplit_mem_length c rest hmr
      cases hsp : charSplit c rest with
      | nil => exact absurd hsp (charSplit_ne_nil c rest)
      | cons p ps =>
        rw [hsp] at hlen
        show 2 ≤ ((x :: p) :: ps).length
        rw [List.length_cons] at hlen ⊢
        omega

/-- The last part of a split at the final occurrence of the separator
is the tail after it. -/
theorem charSplit_getLastD {c : Char} {bs : List Char} (hbs : c ∉ bs) :
    ∀ (as d : List Char), (charSplit c (as ++ c :: bs)).getLastD d = bs
  | [], d => by
    rw [List.nil_append, charSplit, if_pos (by simp), charSplit_not_mem c hbs,
      List.getLastD_cons, List.getLastD_cons]
    rfl
  | x :: as, d => by
    rw [List.cons_append, charSplit]
    by_cases hx : (x == c) = true
    · rw [if_pos hx, List.getLastD_cons]
      exact charSplit_getLastD hbs as []
    · rw [if_neg hx]
      have hmem : c ∈ as ++ c :: bs :=
        List.mem_append_right as (List.mem_cons_self c bs)
      have hlen := charSplit_mem_length c (as ++ c :: bs) hmem
      have hIH := charSplit_getLastD hbs as d
      cases hsp : charSplit c (as ++ c :: bs) with
      | nil => exact absurd hsp (charSplit_ne_nil c _)
      | cons p ps =>
        cases ps with
        | nil =>
          rw [hsp] at hlen
          simp at hlen
        | cons q qs =>
          rw [hsp, List.getLastD_cons, List.getLastD_cons] at hIH
          show ((x :: p) :: q :: qs).getLastD d = bs
          rw [List.getLastD_cons, List.getLastD_cons]
          exact hIH

/-- Tag cleanup recovers the local name from a namespace-qualified
tag whose local part is brace-free. -/
theorem stripTag_wrap {t : String} (h7d : t.data.contains '\x7d' = false) :
    stripTag ("\x7b" ++ nsUri ++ "\x7d" ++ t) = t := by
  have hdata : ("\x7b" ++ nsUri ++ "\x7d" ++ t).data =
      ("\x7b" ++ nsUri).data ++ '\x7d' :: t.data := by
    rw [String.data_append, String.data_append, List.append_assoc]
    rfl
  have hnm : '\x7d' ∉ t.data := contains_false_not_mem h7d
  have hc : ("\x7b" ++ nsUri ++ "\x7d" ++ t).data.contains '\x7d' = true := by
    rw [hdata]
    exact mem_contains_true
      (List.mem_append_right _ (List.mem_cons_self _ _))
  rw [stripTag, if_pos hc, hdata, charSplit_getLastD hnm]

/-- Tag cleanup leaves a brace-free tag unchanged. -/
theorem stripTag_bare {t : String} (h : t.data.contains '\x7d' = false) :
    stripTag t = t := by
  rw [stripTag, if_neg (by simp [contains_false_not_mem h])]

/-- A namespace-free element carries no opening brace in its tag. -/
theorem bareTagsE_tag7b {d : Element} (h : bareTagsE d = true) :
    d.tag.data.contains '\x7b' = false := by
  cases d with
  | mk t x cs =>
    rw [bareTagsE] at h
    simp only [Bool.and_eq_true, Bool.not_eq_true'] at h
    rw [Element.tag]
    exact h.1.1

/-- A namespace-free element carries no closing brace in its tag. -/
theorem bareTagsE_tag7d {d : Element} (h : bareTagsE d = true) :
    d.tag.data.contains '\x7d' = false := by
  cases d with
  | mk t x cs =>
    rw [bareTagsE] at h
    simp only [Bool.and_eq_true, Bool.not_eq_true'] at h
    rw [Element.tag]
    exact h.1.2

/-- The children of a namespace-free element are namespace-free. -/
theorem bareTagsE_bareL {d : Element} (h : bareTagsE d = true) :
    bareTagsL d.children = true := by
  cases d with
  | mk t x cs =>
    rw [bareTagsE] at h
    simp only [Bool.and_eq_true, Bool.not_eq_true'] at h
    rw [Element.children]
    exact h.2

mutual

/-- Namespace qualification maps the descendant list elementwise. -/
theorem descendants_mapNsE (u : String) :
    ∀ e, descendants (mapNsE u e) = (descendants e).map (mapNsE u)
  | .mk t x cs => by
    rw [mapNsE, descendants, descendants, descList_mapNsL u cs]

/-- Namespace qualification maps the traversal of a child list. -/
theorem descList_mapNsL (u : String) :
    ∀ l, descList (mapNsL u l) = (descList l).map (mapNsE u)
  | [] => rfl
  | c :: rest => by
    rw [mapNsL, descList, descList, descendants_mapNsE u c,
      descList_mapNsL u rest, List.map_append, List.map_cons]

end

mutual

/-- Every proper descendant of a namespace-free document is itself a
namespace-free document. -/
theorem bareTagsE_desc : ∀ (e : Element), bareTagsE e = true →
    ∀ d ∈ descendants e, bareTagsE d = true
  | .mk t x cs => by
    intro h d hd
    rw [descendants] at hd
    rw [bareTagsE] at h
    simp only [Bool.and_eq_true, Bool.not_eq_true'] at h
    exact bareTagsL_desc cs h.2 d hd

/-- Descendant namespace-freedom over a child list. -/
theorem bareTagsL_desc : ∀ (l : List Element), bareTagsL l = true →
    ∀ d ∈ descList l, bareTagsE d = true
  | [] => by
    intro h d hd
    rw [descList] at hd
    exact absurd hd (List.not_mem_nil d)
  | c :: rest => by
    intro h d hd
    rw [bareTagsL, Bool.and_eq_true] at h
    rw [descList] at hd
    rcases List.mem_append.mp hd with h1 | h2
    · rcases List.mem_cons.mp h1 with heq | h1'
      · rw [heq]
        exact h.1
      · exact bareTagsE_desc c h.1 d h1'
    · exact bareTagsL_desc rest h.2 d h2

end

/-- On a namespace-qualified document, a search for a qualified name
finds exactly the qualifications of the bare search's results. -/
theorem findAll_mapNsE (e : Element) (name : String) :
    findAll (mapNsE nsUri e) (nsWrap name) = (findAll e name).map (mapNsE nsUri) := by
  rw [findAll, findAll, descendants_mapNsE, List.filter_map]
  congr 1
  apply List.filter_congr
  intro d _
  cases d with
  | mk t x cs =>
    show ((mapNsE nsUri (.mk t x cs)).tag == nsWrap name) =
      ((Element.mk t x cs).tag == name)
    rw [mapNsE, Element.tag, Element.tag, nsWrap]
    exact append_beq_cancel ("\x7b" ++ nsUri ++ "\x7d") t name

/-- On a namespace-free document, a search for a qualified name finds
nothing. -/
theorem findAll_wrap_of_bare {e : Element} (h : bareTagsE e = true)
    (name : String) : findAll e (nsWrap name) = [] := by
  rw [findAll, List.filter_eq_nil_iff]
  intro d hd
  intro hc
  exact bare_ne_wrap (bareTagsE_tag7b (bareTagsE_desc e h d hd)) name
    (by simpa using hc)

/-- Building a record from namespace-qualified children gives the
record of the bare children: the qualification is stripped again. -/
theorem foldl_dictSet_mapNsL : ∀ (cs : List Element), bareTagsL cs = true →
    ∀ r, (mapNsL nsUri cs).foldl
        (fun r c => dictSet r (stripTag c.tag) c.text) r =
      cs.foldl (fun r c => dictSet r (stripTag c.tag) c.text) r
  | [], _, r => rfl
  | c :: rest, h, r => by
    rw [bareTagsL, Bool.and_eq_true] at h
    have hstep : dictSet r (stripTag (mapNsE nsUri c).tag) (mapNsE nsUri c).text =
        dictSet r (stripTag c.tag) c.text := by
      cases c with
      | mk t x cs =>
        have h7d : t.data.contains '\x7d' = false := by
          have hb := h.1
          rw [bareTagsE] at hb
          simp only [Bool.and_eq_true, Bool.not_eq_true'] at hb
          exact hb.1.2
        rw [mapNsE, Element.tag, Element.tag, Element.text, Element.text,
          stripTag_wrap h7d, stripTag_bare h7d]
    rw [mapNsL, List.foldl_cons, List.foldl_cons, hstep]
    exact foldl_dictSet_mapNsL rest h.2 _

/-- Record extraction from a namespace-free record element is
unchanged by namespace qualification. -/
theorem buildRecord_mapNsE {tn : Element} (h : bareTagsE tn = true) :
    ApiConvert.buildRecord (mapNsE nsUri tn) = ApiConvert.buildRecord tn := by
  cases tn with
  | mk t x cs =>
    rw [bareTagsE] at h
    simp only [Bool.and_eq_true, Bool.not_eq_true'] at h
    rw [ApiConvert.buildRecord, ApiConvert.buildRecord, mapNsE,
      Element.children, Element.children]
    exact foldl_dictSet_mapNsL cs h.2 []

/-- C7: namespace tolerance.  For every namespace-free document, the
identical document qualified throughout with the documented namespace
URI extracts to the same result: the same table, the same column
order and values, and the same status message. -/
theorem claim_c7_namespace_tolerance (root : Element)
    (h : bareTagsE root = true) :
    ApiConvert.parse_xml_to_dataframe (mapNsE nsUri root) =
      ApiConvert.parse_xml_to_dataframe root := by
  have hfa1 : findFirst root (nsWrap "DataList") = none := by
    rw [findFirst_eq_none]
    intro d hd
    exact bare_ne_wrap (bareTagsE_tag7b (bareTagsE_desc root h d hd)) "DataList"
  have hmap1 : findFirst (mapNsE nsUri root) (nsWrap "DataList") =
      Option.map (mapNsE nsUri) (findFirst root "DataList") := by
    rw [findFirst, findFirst, findAll_mapNsE, List.head?_map]
  have hmapbare : ∀ (e : Element) (s : String), s.data.contains '\x7b' = false →
      findAll (mapNsE nsUri e) s = [] := by
    intro e s hs
    rw [findAll, List.filter_eq_nil_iff]
    intro d hd
    rw [descendants_mapNsE] at hd
    obtain ⟨d0, _, rfl⟩ := List.mem_map.mp hd
    intro hc
    cases d0 with
    | mk t x cs =>
      rw [mapNsE, Element.tag] at hc
      exact wrap_ne_bare hs t (by simpa using hc)
  cases hfd : findFirst root "DataList" with
  | none =>
    have e1 : ApiConvert.findDataList root = none := by
      rw [ApiConvert.findDataList, hfa1, hfd]
    have e2 : ApiConvert.findDataList (mapNsE nsUri root) = none := by
      have h2 : findFirst (mapNsE nsUri root) "DataList" = none := by
        rw [findFirst, hmapbare root "DataList" (by decide)]
        rfl
      rw [ApiConvert.findDataList, hmap1, hfd, h2]
      rfl
    simp only [ApiConvert.parse_xml_to_dataframe, e1, e2]
  | some dl =>
    obtain ⟨hmem, htag⟩ := findFirst_some_mem hfd
    have hbdl : bareTagsE dl = true := bareTagsE_desc root h dl hmem
    have e1 : ApiConvert.findDataList root = some dl := by
      rw [ApiConvert.findDataList, hfa1, hfd]
    have e2 : ApiConvert.findDataList (mapNsE nsUri root) =
        some (mapNsE nsUri dl) := by
      rw [ApiConvert.findDataList, hmap1, hfd]
      rfl
    have hTNdl : ApiConvert.findTNs dl = findAll dl "TN_DT" := by
      rw [ApiConvert.findTNs, findAll_wrap_of_bare hbdl]
      rfl
    have hTNmap : ApiConvert.findTNs (mapNsE nsUri dl) =
        (findAll dl "TN_DT").map (mapNsE nsUri) := by
      rw [ApiConvert.findTNs, findAll_mapNsE]
      cases hfa : findAll dl "TN_DT" with
      | nil =>
        rw [List.map_nil]
        exact hmapbare dl "TN_DT" (by decide)
      | cons a l =>
        rw [List.map_cons]
        rfl
    have hrecs : (ApiConvert.findTNs (mapNsE nsUri dl)).map ApiConvert.buildRecord =
        (ApiConvert.findTNs dl).map ApiConvert.buildRecord := by
      rw [hTNmap, hTNdl, List.map_map]
      apply List.map_congr_left
      intro tn htn
      have htnd : tn ∈ descendants dl := by
        rw [findAll] at htn
        exact (List.mem_filter.mp htn).1
      exact buildRecord_mapNsE (bareTagsE_desc dl hbdl tn htnd)
    simp only [ApiConvert.parse_xml_to_dataframe, e1, e2]
    rw [hrecs]

/-- Closed instance of C7: a concrete two-record namespace-free
document and its namespace-qualified twin extract identically. -/
theorem claim_c7_namespace_tolerance_witness :
    bareTagsE c7Doc = true ∧
    ApiConvert.parse_xml_to_dataframe (mapNsE nsUri c7Doc) =
      ApiConvert.parse_xml_to_dataframe c7Doc :=
  ⟨by decide, claim_c7_namespace_tolerance c7Doc (by decide)⟩

/-- Reading past the end of a list gives the default. -/
theorem getD_len_le {l : List α} {i : Nat} (d : α) (h : l.length ≤ i) :
    l.getD i d = d := by
  rw [List.getD_eq_getElem?_getD, List.getElem?_eq_none h]
  rfl

/-- Dtype promotion keeps the column length. -/
theorem promote_length (l : List Cell) : (promote l).length = l.length := by
  rw [promote]
  split
  · rw [List.length_map]
  · rfl

/-- Dtype promotion keeps a missing entry missing. -/
theorem promote_missing {l : List Cell} {i : Nat}
    (h : l[i]? = some Cell.missing) : (promote l)[i]? = some Cell.missing := by
  rw [promote]
  split
  · rw [List.getElem?_map, h]
    rfl
  · exact h

/-- Column coercion keeps a missing entry missing. -/
theorem toNumericColumn_missing {l : List Cell} {i : Nat}
    (h : l[i]? = some Cell.missing) :
    (toNumericColumn l)[i]? = some Cell.missing := by
  rw [toNumericColumn]
  apply promote_missing
  rw [List.getElem?_map, h]
  rfl

/-- One `pd.to_numeric` column-assignment step keeps the column
labels. -/
theorem setColStep_cols (t : Table) (name : String) :
    ((match t.colIdx (Cell.str name) with
      | some k => t.setColVals k (toNumericColumn (t.rows.map fun r => getAt r k))
      | none => t) : Table).cols = t.cols := by
  cases hk : t.colIdx (Cell.str name) with
  | some k => rfl
  | none => rfl

/-- The whole coercion pass keeps the column labels. -/
theorem coerce_cols (t : Table) :
    (ApiConvert.coerceNumericCols t).cols = t.cols := by
  rw [ApiConvert.coerceNumericCols, ApiConvert.numeric_columns]
  simp only [List.foldl_cons, List.foldl_nil]
  rw [setColStep_cols, setColStep_cols, setColStep_cols, setColStep_cols,
    setColStep_cols]

/-- One `pd.to_numeric` column-assignment step keeps a missing cell
missing. -/
theorem setColStep_missing (t : Table) (name : String) (i j : Nat)
    (h : getAt (t.rows.getD i []) j = Cell.missing) :
    getAt (((match t.colIdx (Cell.str name) with
      | some k => t.setColVals k (toNumericColumn (t.rows.map fun r => getAt r k))
      | none => t) : Table).rows.getD i []) j = Cell.missing := by
  cases hk : t.colIdx (Cell.str name) with
  | none => exact h
  | some k =>
    show getAt ((List.zipWith (fun r v => r.set k v) t.rows
      (toNumericColumn (t.rows.map fun r => getAt r k))).getD i []) j = Cell.missing
    by_cases hi : i < t.rows.length
    · have hvl : (toNumericColumn (t.rows.map fun r => getAt r k)).length =
          t.rows.length := by
        rw [toNumericColumn, promote_length, List.length_map, List.length_map]
      have hiz : i < (List.zipWith (fun r v => r.set k v) t.rows
          (toNumericColumn (t.rows.map fun r => getAt r k))).length := by
        rw [List.length_zipWith, hvl, min_self]
        exact hi
      rw [getAt, List.getD_eq_getElem _ _ hiz]
      simp only [List.getElem_zipWith]
      rw [getAt, List.getD_eq_getElem _ _ hi, List.getD_eq_getElem?_getD] at h
      rw [List.getD_eq_getElem?_getD]
      by_cases hjk : k = j
      · subst hjk
        rw [List.getElem?_set]
        rw [if_pos rfl]
        by_cases hkr : k < (t.rows[i]).length
        · rw [if_pos hkr]
          rw [List.getElem?_eq_getElem hkr, Option.getD_some] at h
          have hVi : (toNumericColumn (t.rows.map fun r => getAt r k))[i]? =
              some Cell.missing := by
            apply toNumericColumn_missing
            rw [List.getElem?_map, List.getElem?_eq_getElem hi, Option.map_some']
            rw [getAt, List.getD_eq_getElem _ _ hkr, h]
          rw [List.getElem?_eq_getElem (show i <
              (toNumericColumn (t.rows.map fun r => getAt r k)).length by
                rw [hvl]; exact hi)] at hVi
          rw [Option.some.inj hVi]
          rfl
        · rw [if_neg hkr]
          rfl
      · rw [List.getElem?_set_ne hjk]
        exact h
    · have hle : (List.zipWith (fun r v => r.set k v) t.rows
          (toNumericColumn (t.rows.map fun r => getAt r k))).length ≤ i := by
        rw [List.length_zipWith]
        exact le_trans (min_le_left _ _) (Nat.le_of_not_lt hi)
      rw [getAt, getD_len_le _ hle]
      rfl

/-- The whole coercion pass keeps a missing cell missing. -/
theorem coerce_missing (t : Table) (i j : Nat)
    (h : getAt (t.rows.getD i []) j = Cell.missing) :
    getAt ((ApiConvert.coerceNumericCols t).rows.getD i []) j = Cell.missing := by
  rw [ApiConvert.coerceNumericCols, ApiConvert.numeric_columns]
  simp only [List.foldl_cons, List.foldl_nil]
  exact setColStep_missing _ "CODE2" i j
    (setColStep_missing _ "CODE1" i j
      (setColStep_missing _ "CODE" i j
        (setColStep_missing _ "Period" i j
          (setColStep_missing _ "DTVAL_CO" i j h))))

/-- In the raw frame, a record key that is absent or holds `None`
yields a missing cell at every column carrying that name. -/
theorem recordsToTable_missing (records : List (List (String × Option String)))
    (i j : Nat) (name : String)
    (hcol : (recordsToTable records).cols.getD j Cell.missing = Cell.str name)
    (habs : lookupRec (records.getD i []) name = none ∨
            lookupRec (records.getD i []) name = some none) :
    getAt ((recordsToTable records).rows.getD i []) j = Cell.missing := by
  simp only [recordsToTable] at hcol ⊢
  set cn := dedupBy (fun a b : String => a == b)
    ((records.map fun r => r.map Prod.fst).flatten)
  by_cases hi : i < records.length
  · have hrl : i < (records.map fun r => cn.map fun c =>
        (match lookupRec r c with
          | some (some s) => Cell.str s
          | some none => Cell.missing
          | none => Cell.missing : Cell)).length := by
      rw [List.length_map]
      exact hi
    rw [getAt, List.getD_eq_getElem _ _ hrl]
    simp only [List.getElem_map]
    by_cases hj : j < cn.length
    · rw [List.getD_eq_getElem _ _ (show j < (cn.map fun c =>
          (match lookupRec records[i] c with
            | some (some s) => Cell.str s
            | some none => Cell.missing
            | none => Cell.missing : Cell)).length by
          rw [List.length_map]; exact hj)]
      simp only [List.getElem_map]
      have hname : cn[j] = name := by
        rw [List.getD_eq_getElem _ _ (show j < (cn.map Cell.str).length by
          rw [List.length_map]; exact hj)] at hcol
        simp only [List.getElem_map] at hcol
        simpa using hcol
      rw [hname]
      rw [List.getD_eq_getElem _ _ hi] at habs
      rcases habs with ha | ha
      · rw [ha]
      · rw [ha]
    · have hlj : (cn.map fun c =>
          (match lookupRec records[i] c with
            | some (some s) => Cell.str s
            | some none => Cell.missing
            | none => Cell.missing : Cell)).length ≤ j := by
        rw [List.length_map]
        exact Nat.le_of_not_lt hj
      rw [getD_len_le _ hlj]
  · have hli : (records.map fun r => cn.map fun c =>
        (match lookupRec r c with
          | some (some s) => Cell.str s
          | some none => Cell.missing
          | none => Cell.missing : Cell)).length ≤ i := by
      rw [List.length_map]
      exact Nat.le_of_not_lt hi
    rw [getAt, getD_len_le _ hli]
    rfl

/-- C8: missing-value normalization.  Whenever extraction succeeds, a
record field whose element carried no text (an empty or self-closing
element, which ElementTree reads back identically as a `None` text
node) and a field absent from that record both yield the missing
marker in the resulting table at every column with that name — and
the missing marker is not the empty string. -/
theorem claim_c8_missing_normalization
    (root : Element) (df : Table) (msg : String) (dl : Element) (i j : Nat)
    (name : String)
    (hdl : ApiConvert.findDataList root = some dl)
    (h : ApiConvert.parse_xml_to_dataframe root = (some df, msg))
    (hcol : df.cols.getD j Cell.missing = Cell.str name)
    (habs : lookupRec (ApiConvert.buildRecord
        ((ApiConvert.findTNs dl).getD i (.mk "" none []))) name = none ∨
      lookupRec (ApiConvert.buildRecord
        ((ApiConvert.findTNs dl).getD i (.mk "" none []))) name = some none) :
    getAt (df.rows.getD i []) j = Cell.missing ∧ Cell.missing ≠ Cell.str "" := by
  constructor
  · have hdf : df = ApiConvert.coerceNumericCols
        (recordsToTable ((ApiConvert.findTNs dl).map ApiConvert.buildRecord)) := by
      simp only [ApiConvert.parse_xml_to_dataframe, hdl] at h
      by_cases hrec :
          ((ApiConvert.findTNs dl).map ApiConvert.buildRecord).isEmpty = true
      · rw [if_pos hrec] at h
        simp at h
      · rw [if_neg hrec] at h
        have h1 := congrArg Prod.fst h
        exact (Option.some.inj h1).symm
    subst hdf
    apply coerce_missing
    apply recordsToTable_missing _ i j name
    · rw [← coerce_cols (recordsToTable
        ((ApiConvert.findTNs dl).map ApiConvert.buildRecord))]
      exact hcol
    · rw [show ((ApiConvert.findTNs dl).map ApiConvert.buildRecord).getD i [] =
          ApiConvert.buildRecord ((ApiConvert.findTNs dl).getD i (.mk "" none []))
        from List.getD_map (ApiConvert.findTNs dl) (Element.mk "" none [])
          ApiConvert.buildRecord]
      exact habs
  · intro hc
    exact Cell.noConfusion hc

/-- Closed instance of C8 at a two-record document: the first record's
empty `SCR_MN` element and its absent `EXTRA` field both come out as
missing cells of the parsed table. -/
theorem claim_c8_missing_normalization_witness :
    (getAt (((⟨[Cell.str "CODE", Cell.str "SCR_MN", Cell.str "EXTRA"],
        [[Cell.int 1, Cell.missing, Cell.missing],
         [Cell.int 2, Cell.str "x", Cell.str "y"]]⟩ : Table)).rows.getD 0 []) 1 =
          Cell.missing ∧ Cell.missing ≠ Cell.str "") ∧
    (getAt (((⟨[Cell.str "CODE", Cell.str "SCR_MN", Cell.str "EXTRA"],
        [[Cell.int 1, Cell.missing, Cell.missing],
         [Cell.int 2, Cell.str "x", Cell.str "y"]]⟩ : Table)).rows.getD 0 []) 2 =
          Cell.missing ∧ Cell.missing ≠ Cell.str "") :=
  ⟨claim_c8_missing_normalization c8Doc _ "Successfully parsed 2 records"
      (.mk "DataList" none
        [.mk "TN_DT" none [.mk "CODE" (some "1") [], .mk "SCR_MN" none []],
         .mk "TN_DT" none [.mk "CODE" (some "2") [], .mk "SCR_MN" (some "x") [],
           .mk "EXTRA" (some "y") []]])
      0 1 "SCR_MN" rfl rfl rfl (Or.inr rfl),
   claim_c8_missing_normalization c8Doc _ "Successfully parsed 2 records"
      (.mk "DataList" none
        [.mk "TN_DT" none [.mk "CODE" (some "1") [], .mk "SCR_MN" none []],
         .mk "TN_DT" none [.mk "CODE" (some "2") [], .mk "SCR_MN" (some "x") [],
           .mk "EXTRA" (some "y") []]])
      0 2 "EXTRA" rfl rfl rfl (Or.inl rfl)⟩

end XmlConvert

